import Mathlib

/-!
Verification development for the phpup desktop process lifecycle and
reconciliation engine (`desktop/src/composables/useStore.ts`).

The TypeScript source is shallowly embedded: pure helpers become Lean
functions on `String`/`List Char`, the mutable store becomes an explicit
`StoreState` record, and every external effect (shell probes, the
`phpup --list` invocation, HTTP HEAD probes, process kills) is an oracle
field of an `Env` record returning `Except Unit _` so that a rejected
promise is a `.error` value.  JavaScript numbers reached by `parseInt`
are modelled as `Option Int` (`none` = `NaN`).
-/

namespace Phpup

/-- Decidable equality for `Except`, used to evaluate concrete runs. -/
instance instDecEqExcept {ε α : Type _} [DecidableEq ε] [DecidableEq α] :
    DecidableEq (Except ε α) := fun a b =>
  match a, b with
  | .error e, .error e' =>
    if h : e = e' then isTrue (congrArg Except.error h)
    else isFalse fun hh => h (Except.error.inj hh)
  | .ok x, .ok y =>
    if h : x = y then isTrue (congrArg Except.ok h)
    else isFalse fun hh => h (Except.ok.inj hh)
  | .error _, .ok _ => isFalse fun hh => Except.noConfusion hh
  | .ok _, .error _ => isFalse fun hh => Except.noConfusion hh

/-! ### JavaScript string/number primitives -/

/-- The character class `\s` of JavaScript regular expressions, restricted to
the code points that can occur in the process listings handled here. -/
def isJsSpace (c : Char) : Bool :=
  c = ' ' || c = '\t' || c = '\n' || c = '\r' || c = '\x0b' || c = '\x0c' ||
  c = ' ' || c = '﻿'

/-- The character class `[\w.-]` used by the host/domain validation regex:
ASCII word characters, dot and dash. -/
def isWordDotDash (c : Char) : Bool :=
  c.isAlphanum || c = '_' || c = '.' || c = '-'

/-- Lower-case an ASCII letter; other characters are returned unchanged
(`toLowerCase` as it acts on the ASCII output scanned here). -/
def charToLower (c : Char) : Char :=
  if 'A' ≤ c ∧ c ≤ 'Z' then Char.ofNat (c.toNat + 32) else c

/-- `String.prototype.toLowerCase` on the character list of a string. -/
def lowerStr (s : String) : String :=
  String.mk (s.data.map charToLower)

/-- `String.prototype.split` with a one-character separator:
`"".split(sep)` is `[""]`, and separators at the ends produce empty pieces. -/
def splitOnChar (sep : Char) : List Char → List (List Char)
  | [] => [[]]
  | c :: cs =>
    let r := splitOnChar sep cs
    if c = sep then [] :: r
    else
      match r with
      | h :: t => (c :: h) :: t
      | [] => [[c]]

/-- `hay.includes(needle)` (substring containment) on character lists. -/
def containsSub (hay needle : List Char) : Bool :=
  needle.isPrefixOf hay ||
    match hay with
    | [] => false
    | _ :: rest => containsSub rest needle

/-- `s.endsWith(t)`. -/
def strEndsWith (s t : String) : Bool :=
  t.data.isSuffixOf s.data

/-- `s.includes(t)`. -/
def strIncludes (s t : String) : Bool :=
  containsSub s.data t.data

/-- `s.trim()` (JS trims the `\s` class on both ends). -/
def strTrim (s : String) : String :=
  String.mk (((s.data.dropWhile isJsSpace).reverse.dropWhile isJsSpace).reverse)

/-- Value of a decimal digit character. -/
def digitVal (c : Char) : Nat := c.toNat - 48

/-- Decimal value of a digit run (most significant first). -/
def digitsVal (ds : List Char) : Nat :=
  ds.foldl (fun acc c => acc * 10 + digitVal c) 0

/-- Digit character for `n < 10`. -/
def digitChar (n : Nat) : Char := Char.ofNat (48 + n)

/-- Decimal rendering of a natural number, fuel-indexed so that it reduces
structurally (`fuel > n` at the top call). -/
def natToStrAux : Nat → Nat → List Char
  | 0, _ => []
  | fuel + 1, n =>
    if n < 10 then [digitChar n]
    else natToStrAux fuel (n / 10) ++ [digitChar (n % 10)]

/-- Decimal rendering of a natural number (`Number.prototype.toString`). -/
def natToStr (n : Nat) : String :=
  String.mk (natToStrAux (n + 1) n)

/-- `Number.prototype.toString` for a JS number (`none` = `NaN`). -/
def jsNumToString : Option Int → String
  | none => "NaN"
  | some m => if m < 0 then "-" ++ natToStr m.natAbs else natToStr m.natAbs

/-- Parse a nonempty leading decimal-digit run, ignoring what follows
(this is the digit-consuming core of `parseInt(s, 10)`). -/
def parseDigits (cs : List Char) : Option Nat :=
  let ds := cs.takeWhile Char.isDigit
  if ds.isEmpty then none else some (digitsVal ds)

/-- `parseInt(s, 10)`: skip leading whitespace, accept one optional sign,
then require at least one decimal digit; `none` models `NaN`. -/
def jsParseInt (s : String) : Option Int :=
  match s.data.dropWhile isJsSpace with
  | [] => none
  | c :: rest =>
    if c = '-' then (parseDigits rest).map (fun n => -(n : Int))
    else if c = '+' then (parseDigits rest).map (fun n => (n : Int))
    else (parseDigits (c :: rest)).map (fun n => (n : Int))

/-- JS truthiness of a string (`""` is falsy). -/
def jsTruthyS (s : String) : Bool := s ≠ ""

/-- JS truthiness of a `string | null` value. -/
def jsTruthyOpt : Option String → Bool
  | none => false
  | some s => jsTruthyS s

/-- `a || b` for `string`-typed `a` with default `b`
(`overridePort || project.port`). -/
def jsOr (o : Option String) (d : String) : String :=
  match o with
  | none => d
  | some s => if s = "" then d else s

/-- `isValidPort` (useStore.ts:708): numeric, in `1..65535`, and written
canonically (`port === num.toString()`). -/
def isValidPort (port : String) : Bool :=
  match jsParseInt port with
  | none => false
  | some n => 0 < n && n ≤ 65535 && port = jsNumToString (some n)

/-! ### Data model (`types/index.ts` and the store refs) -/

/-- `ProjectStatus` (types/index.ts). -/
inductive ProjectStatus where
  | stopped
  | starting
  | running
  | crashed
deriving DecidableEq

/-- `Project` (types/index.ts); the fields not read by the lifecycle or
reconciliation engine (`hasConfig`, `groupId`, `favicon`) are omitted. -/
structure Project where
  id : String
  name : String
  path : String
  port : String
  docroot : String
  isRunning : Bool
  status : ProjectStatus
deriving DecidableEq

/-- `PhpupListedInstance` (useStore.ts:713). -/
structure PhpupListedInstance where
  pid : String
  port : Option String
  pathFragment : Option String
deriving DecidableEq

/-- `ProjectSettings` (types/index.ts); `httpsMode` is kept as a string as in
the config file and the `"off" | "local" | "on"` union. -/
structure ProjectSettings where
  host : String
  port : String
  domain : String
  docroot : String
  phpThreads : String
  httpsMode : String
  workerMode : Bool
  watchMode : Bool
  compression : Bool
  openBrowser : Bool
  xdebug : Bool
deriving DecidableEq

/-- A `RunningProcess` entry of the `runningProcesses` map together with the
per-spawn `serverReady` flag and output buffer captured by the closures
installed in `startProject`. -/
structure ProcHandle where
  projectId : String
  serverReady : Bool
  output : List String
deriving DecidableEq

/-- The transient `portConflict` value `{ project, suggestedPort }`; the
project is identified by its id. -/
structure PortConflict where
  projectId : String
  suggestedPort : String
deriving DecidableEq

/-- The tracked-pid map `runningPids : Map<projectId, pid>` as an ordered
association list (JS `Map` preserves insertion order). -/
abbrev PidMap := List (String × String)

/-- `Map.prototype.get`. -/
def pidGet : PidMap → String → Option String
  | [], _ => none
  | (k, v) :: rest, key => if k = key then some v else pidGet rest key

/-- `Map.prototype.set`: replace in place when the key exists, else append. -/
def pidSet : PidMap → String → String → PidMap
  | [], key, v => [(key, v)]
  | (k, w) :: rest, key, v =>
    if k = key then (k, v) :: rest else (k, w) :: pidSet rest key v

/-- `Map.prototype.delete`. -/
def pidDel : PidMap → String → PidMap
  | [], _ => []
  | (k, v) :: rest, key =>
    if k = key then pidDel rest key else (k, v) :: pidDel rest key

/-- The store's mutable state touched by the lifecycle/reconciliation engine:
`projects`, `runningPids`, `runningProcesses` (as `handles`), the in-flight
spawns awaited inside `startProject`, `portConflict`, `notifications`,
`projectOutput`, `settings` and `selectedProject` (by id). -/
structure StoreState where
  projects : List Project
  runningPids : PidMap
  handles : List ProcHandle
  pendingSpawns : List String
  portConflict : Option PortConflict
  notifications : List String
  projectOutput : List String
  settings : ProjectSettings
  selectedProjectId : Option String
deriving DecidableEq

/-- External reality: each field is the outcome of one kind of external
command; `.error ()` models a rejected promise (a thrown exception). -/
structure Env where
  /-- exit code of the `ss/lsof` port probe run by `isPortInUse`. -/
  portProbeExec : String → Except Unit Int
  /-- combined stdout+stderr of `phpup --list`. -/
  listCmd : Except Unit String
  /-- combined output of `curl -skI` for a given URL. -/
  curl : String → Except Unit String
  /-- exit code and stdout of `cat <path>/.phpup/config`. -/
  configCat : String → Except Unit (Int × String)
  /-- result of `child.kill()` for the handle of a project id. -/
  childKill : String → Except Unit Unit
  /-- verification result of `killPid(pid)`. -/
  killPid : String → Except Unit Bool
  /-- the `fuser -k … || lsof … | xargs kill` port-kill command. -/
  portKill : String → Except Unit Unit

/-- `runningProcesses.get(id)`. -/
def handleGet : List ProcHandle → String → Option ProcHandle
  | [], _ => none
  | h :: rest, id => if h.projectId = id then some h else handleGet rest id

/-- Replace the handle stored for a project id. -/
def handleSet : List ProcHandle → String → ProcHandle → List ProcHandle
  | [], _, _ => []
  | h :: rest, id, h' =>
    if h.projectId = id then h' :: rest else h :: handleSet rest id h'

/-- `runningProcesses.delete(id)`. -/
def handleDel (hs : List ProcHandle) (id : String) : List ProcHandle :=
  hs.filter (fun h => h.projectId ≠ id)

/-- Project ids owning a live process handle. -/
def handleIds (hs : List ProcHandle) : List String :=
  hs.map ProcHandle.projectId

/-! ### InstanceLister: `parsePhpupListOutput` (useStore.ts:734) -/

/-- Match of `/^(\d+)\s+/`: a maximal nonempty leading digit run followed by
at least one whitespace character. -/
def linePid (l : List Char) : Option String :=
  let ds := l.takeWhile Char.isDigit
  if ds.isEmpty then none
  else
    match (l.drop ds.length).head? with
    | some c => if isJsSpace c then some (String.mk ds) else none
    | none => none

/-- Match of `/\*:(\d+)/`: the capture at the leftmost position where `*:` is
followed by at least one digit. -/
def findPortAux : List Char → Option String
  | [] => none
  | '*' :: rest =>
    match rest with
    | ':' :: r2 =>
      let ds := r2.takeWhile Char.isDigit
      if ds.isEmpty then findPortAux rest else some (String.mk ds)
    | _ => findPortAux rest
  | _ :: rest => findPortAux rest

/-- `.` of the fragment regex: any character except line terminators. -/
def isDotChar (c : Char) : Bool :=
  !(c = '\n' || c = '\r' || c = ' ' || c = ' ')

/-- Tail `\s+\.phpup` of the fragment regex: at least one whitespace
character followed by the literal `.phpup` (the whitespace run is forced to
be maximal because `.` is not in `\s`). -/
def fragTail (t : List Char) : Bool :=
  let sp := t.takeWhile isJsSpace
  !sp.isEmpty && ".phpup".data.isPrefixOf (t.drop sp.length)

/-- `.+?` (lazy, at least one character) followed by `fragTail`; returns the
shortest body that lets the tail match. -/
def fragBody (g1 : List Char) (rest : List Char) : Option (List Char) :=
  (List.range rest.length).findSome? fun d =>
    let m := d + 1
    let body := rest.take m
    if body.all isDotChar && fragTail (rest.drop m) then
      some (g1 ++ '/' :: body)
    else none

/-- `\S*\/` with a greedy, backtracking `\S*`: try the longest non-space
prefix first, shrinking until the next character is `/`. -/
def fragAfterSpaces (r : List Char) : Option (List Char) :=
  let gn := (r.takeWhile (fun c => !isJsSpace c)).length
  (List.range (gn + 1)).findSome? fun d =>
    let j := gn - d
    match r.drop j with
    | '/' :: rest => fragBody (r.take j) rest
    | _ => none

/-- Attempt the fragment regex `\s+(\S*\/.+?)\s+\.phpup` with the match
starting exactly at the head of `l` (greedy `\s+` with backtracking). -/
def fragMatchAt (l : List Char) : Option (List Char) :=
  let n := (l.takeWhile isJsSpace).length
  (List.range n).findSome? fun d => fragAfterSpaces (l.drop (n - d))

/-- Leftmost match of the fragment regex over the whole line. -/
def lineFragmentRaw : List Char → Option (List Char)
  | [] => none
  | l@(_ :: rest) =>
    match fragMatchAt l with
    | some g => some g
    | none => lineFragmentRaw rest

/-- Captured path fragment with a leading `...` truncation marker stripped
(useStore.ts:748). -/
def lineFragment (l : List Char) : Option String :=
  (lineFragmentRaw l).map fun g =>
    if "...".data.isPrefixOf g then String.mk (g.drop 3) else String.mk g

/-- `parsePhpupListOutput` (useStore.ts:734): split on newlines, skip lines
without a leading numeric pid, extract the optional `*:<port>` token and the
optional path fragment preceding a `.phpup` marker. -/
def parsePhpupListOutput (output : String) : List PhpupListedInstance :=
  (splitOnChar '\n' output.data).filterMap fun line =>
    match linePid line with
    | none => none
    | some pid =>
      some { pid := pid, port := findPortAux line, pathFragment := lineFragment line }

/-! ### PathMatcher (useStore.ts:719) -/

/-- `getPathSuffix` (useStore.ts:719): join the last `depth` nonempty
`/`-separated segments. -/
def getPathSuffix (path : String) (depth : Nat := 2) : String :=
  let parts := ((splitOnChar '/' path.data).map String.mk).filter jsTruthyS
  String.intercalate "/" (parts.drop (parts.length - depth))

/-- `projectPathMatchesFragment` (useStore.ts:723). -/
def projectPathMatchesFragment (projectPath : String) (pathFragment : String) : Bool :=
  let projectSuffix := getPathSuffix projectPath
  let fragmentSuffix := getPathSuffix pathFragment
  strEndsWith projectPath pathFragment ||
  strIncludes projectPath pathFragment ||
  strEndsWith pathFragment projectSuffix ||
  projectSuffix = fragmentSuffix

/-! ### PortProbe / PortAllocator (useStore.ts:1250, 1259) -/

/-- `isPortInUse` (useStore.ts:1250): run the shell probe and report
`exit code == 0`; a rejected execution propagates. -/
def isPortInUse (env : Env) (port : String) : Except Unit Bool :=
  (env.portProbeExec port).map (fun code => code = 0)

/-- Loop body of `findAvailablePort` (useStore.ts:1261): up to 100
iterations, incrementing the JS number before each probe, breaking with
`""` once the port would exceed 65535. -/
def findAvailablePortLoop (env : Env) : Option Int → Nat → Except Unit String
  | _, 0 => .ok ""
  | port, fuel + 1 =>
    let port' := (port).map (· + 1)
    if (match port' with | some p => decide (p > 65535) | none => false) then .ok ""
    else do
      let inUse ← isPortInUse env (jsNumToString port')
      if !inUse then .ok (jsNumToString port')
      else findAvailablePortLoop env port' fuel

/-- `findAvailablePort` (useStore.ts:1259). -/
def findAvailablePort (env : Env) (startPort : String) : Except Unit String :=
  findAvailablePortLoop env (jsParseInt startPort) 100

/-! ### HttpProbe (useStore.ts:1418-1498) -/

/-- `phpup --list` followed by `parsePhpupListOutput` on the combined
output (useStore.ts:1418); a rejected execution propagates. -/
def listPhpupInstances (env : Env) : Except Unit (List PhpupListedInstance) :=
  (env.listCmd).map parsePhpupListOutput

/-- Ordered-set insertion (`Set.prototype.add` keeps first-insertion
order and ignores duplicates). -/
def ordInsert (xs : List String) (x : String) : List String :=
  if xs.contains x then xs else xs ++ [x]

/-- Matching core of `/KEY=["']?([^"'\n]+)["']?/`: at a position where the
literal `KEY=` matches, consume at most one quote and capture a maximal
nonempty run free of quotes and newlines. -/
def configCapture (r : List Char) : Option String :=
  let r' := match r with
    | c :: cs => if c = '"' || c = '\'' then cs else r
    | [] => r
  let run := r'.takeWhile fun c => !(c = '"' || c = '\'' || c = '\n')
  if run.isEmpty then none else some (String.mk run)

/-- Leftmost successful match of `/KEY=["']?([^"'\n]+)["']?/` over the
config text, advancing past failed positions. -/
def configValueAux (key : List Char) : List Char → Option String
  | [] => none
  | l@(_ :: rest) =>
    if key.isPrefixOf l then
      match configCapture (l.drop key.length) with
      | some v => some v
      | none => configValueAux key rest
    else configValueAux key rest

/-- `config.match(/KEY=["']?([^"'\n]+)["']?/)?.[1]`. -/
def configValue (key : String) (text : String) : Option String :=
  configValueAux (key.data ++ ['=']) text.data

/-- `getProjectNetworkHints` (useStore.ts:1427): seed hosts, merge the
unsaved UI settings when the project is selected, then best-effort merge the
on-disk `.phpup/config` (the read is wrapped in try/catch), and derive the
protocol order from the HTTPS mode. -/
def getProjectNetworkHints (env : Env) (sel : Option String)
    (settings : ProjectSettings) (p : Project) : List String × List String :=
  let hosts0 := ["127.0.0.1", "localhost"]
  let (hosts1, mode1) :=
    if sel = some p.id then
      let h1 := if jsTruthyS settings.host then ordInsert hosts0 settings.host else hosts0
      let h2 := if jsTruthyS settings.domain then ordInsert h1 settings.domain else h1
      (h2, some settings.httpsMode)
    else (hosts0, (none : Option String))
  let (hosts2, mode2) :=
    match env.configCat p.path with
    | .error _ => (hosts1, mode1)
    | .ok (code, out) =>
      if code = 0 ∧ strTrim out ≠ "" then
        let h3 := match configValue "HOST" out with
          | some v => if jsTruthyS v then ordInsert hosts1 v else hosts1
          | none => hosts1
        let h4 := match configValue "DOMAIN" out with
          | some v => if jsTruthyS v then ordInsert h3 v else h3
          | none => h3
        let m := match configValue "HTTPS_MODE" out with
          | some v => if jsTruthyS v then some v else mode1
          | none => mode1
        (h4, m)
      else (hosts1, mode1)
  if mode2 = some "off" then (hosts2, ["http"])
  else if mode2 = some "local" ∨ mode2 = some "on" then (hosts2, ["https", "http"])
  else (hosts2, ["http", "https"])

/-- `isProjectServingFrankenphp` (useStore.ts:1469): guard on a valid port,
then probe every protocol/host candidate with `curl`; each probe failure is
caught and treated as a miss, a hit is a case-insensitive `frankenphp`
signature in the response. -/
def isProjectServingFrankenphp (env : Env) (sel : Option String)
    (settings : ProjectSettings) (p : Project) : Bool :=
  if !isValidPort p.port then false
  else
    let (hosts, protocols) := getProjectNetworkHints env sel settings p
    protocols.any fun proto =>
      hosts.any fun host =>
        let url := proto ++ "://" ++ host ++ ":" ++ p.port ++ "/"
        match env.curl url with
        | .error _ => false
        | .ok out => containsSub (lowerStr out).data "frankenphp".data

/-- `isPortServingFrankenphp` (useStore.ts:1492): the same probe behind one
more try/catch; the inner function is already total, so it coincides. -/
def isPortServingFrankenphp (env : Env) (sel : Option String)
    (settings : ProjectSettings) (p : Project) : Bool :=
  isProjectServingFrankenphp env sel settings p

/-! ### Reconciler: `refreshAllStatuses` (useStore.ts:1572-1631)

The first pass is split into a decision phase (`findMatch` /
`pass1Decisions`: which still-unconsumed instance, if any, each project
matches, scanning projects in list order and consuming each matched
instance index) and the application of those decisions to the project
records, the matched-id set and the pid map, exactly as the loop at
useStore.ts:1579-1593 performs them. -/

/-- Inner loop of the first pass for one project: the first instance, in
listing order, whose index is not yet consumed, that has a truthy path
fragment matching the project path (useStore.ts:1580-1591). -/
def findMatch (path : String) : List PhpupListedInstance → Nat → List Nat →
    Option (Nat × PhpupListedInstance)
  | [], _, _ => none
  | inst :: rest, i, idxs =>
    if idxs.contains i then findMatch path rest (i + 1) idxs
    else
      match inst.pathFragment with
      | none => findMatch path rest (i + 1) idxs
      | some f =>
        if f = "" then findMatch path rest (i + 1) idxs
        else if projectPathMatchesFragment path f then some (i, inst)
        else findMatch path rest (i + 1) idxs

/-- First-pass decisions, one per project in list order, threading the
consumed instance indexes. -/
def pass1Decisions (instances : List PhpupListedInstance) :
    List Project → List Nat → List (Option (Nat × PhpupListedInstance))
  | [], _ => []
  | p :: rest, idxs =>
    match findMatch p.path instances 0 idxs with
    | none => none :: pass1Decisions instances rest idxs
    | some (i, inst) => some (i, inst) :: pass1Decisions instances rest (idxs ++ [i])

/-- `if (port) project.port = port` (useStore.ts:1589). -/
def adoptPort (instPort : Option String) (old : String) : String :=
  match instPort with
  | none => old
  | some s => if s = "" then old else s

/-- Apply one first-pass decision to a project record. -/
def applyDecision (p : Project) : Option (Nat × PhpupListedInstance) → Project
  | none => p
  | some (_, inst) => { p with port := adoptPort inst.port p.port }

/-- Apply the first-pass decisions to the project list. -/
def applyDecisions : List Project → List (Option (Nat × PhpupListedInstance)) →
    List Project
  | [], _ => []
  | ps, [] => ps
  | p :: ps, d :: ds => applyDecision p d :: applyDecisions ps ds

/-- Project ids matched by the first pass, in project order. -/
def matchedIdsOf : List Project → List (Option (Nat × PhpupListedInstance)) →
    List String
  | p :: ps, some _ :: ds => p.id :: matchedIdsOf ps ds
  | _ :: ps, none :: ds => matchedIdsOf ps ds
  | _, _ => []

/-- `runningPids.set` operations of the first pass, in execution order. -/
def assignsOf : List Project → List (Option (Nat × PhpupListedInstance)) →
    List (String × String)
  | p :: ps, some (_, inst) :: ds => (p.id, inst.pid) :: assignsOf ps ds
  | _ :: ps, none :: ds => assignsOf ps ds
  | _, _ => []

/-- Consumed instance indexes of the first pass. -/
def matchedIdxsOf (ds : List (Option (Nat × PhpupListedInstance))) : List Nat :=
  ds.filterMap (fun d => d.map Prod.fst)

/-- `instances.filter((_, i) => !matchedInstanceIdxs.has(i))`
(useStore.ts:1596). -/
def unmatchedOf : List PhpupListedInstance → Nat → List Nat →
    List PhpupListedInstance
  | [], _, _ => []
  | inst :: rest, i, idxs =>
    if idxs.contains i then unmatchedOf rest (i + 1) idxs
    else inst :: unmatchedOf rest (i + 1) idxs

/-- Pid adoption of the second pass for one probed-positive project
(useStore.ts:1605-1613): prefer the unique unmatched instance with the same
port, else the unique unmatched instance overall, else record nothing. -/
def pass2Asg (unmatched : List PhpupListedInstance) (projectId : String)
    (port : String) : List (String × String) :=
  match unmatched.filter fun inst =>
      jsTruthyOpt inst.port && inst.port = some port with
  | [inst] => [(projectId, inst.pid)]
  | _ =>
    match unmatched with
    | [inst] => [(projectId, inst.pid)]
    | _ => []

/-- Second pass (useStore.ts:1597-1616): probe the projects not yet matched
and with a syntactically valid port; a positive probe adds the project id to
the matched set and adopts a pid via `pass2Asg`.  Returns the final
matched-id set and the `runningPids.set` operations. -/
def pass2Collect (env : Env) (sel : Option String) (settings : ProjectSettings)
    (unmatched : List PhpupListedInstance) :
    List Project → List String → List String × List (String × String)
  | [], ids => (ids, [])
  | p :: rest, ids =>
    if ids.contains p.id then pass2Collect env sel settings unmatched rest ids
    else if !isValidPort p.port then pass2Collect env sel settings unmatched rest ids
    else if isProjectServingFrankenphp env sel settings p then
      let r := pass2Collect env sel settings unmatched rest (ids ++ [p.id])
      (r.1, pass2Asg unmatched p.id p.port ++ r.2)
    else pass2Collect env sel settings unmatched rest ids

/-- Final loop, per project (useStore.ts:1618-1630): set `isRunning`, and
update `status` only when no live handle owns the project — to `running`
when matched, to `stopped` when unmatched unless it is `crashed`. -/
def finalizeOne (handles : List String) (matched : List String) (p : Project) :
    Project :=
  if handles.contains p.id then { p with isRunning := matched.contains p.id }
  else if matched.contains p.id ∧ p.status ≠ .running then
    { p with isRunning := matched.contains p.id, status := .running }
  else if ¬matched.contains p.id ∧ p.status ≠ .crashed then
    { p with isRunning := matched.contains p.id, status := .stopped }
  else { p with isRunning := matched.contains p.id }

/-- Final loop over the project list. -/
def finalizeProjects (handles : List String) (matched : List String)
    (ps : List Project) : List Project :=
  ps.map (finalizeOne handles matched)

/-- `runningPids.set` operations applied in order. -/
def applyAssigns (m : PidMap) : List (String × String) → PidMap
  | [] => m
  | (k, v) :: rest => applyAssigns (pidSet m k v) rest

/-- `runningPids.delete` for every project not in the matched set
(useStore.ts:1621), in project order. -/
def deleteUnmatched (matched : List String) : List Project → PidMap → PidMap
  | [], m => m
  | p :: rest, m =>
    if matched.contains p.id then deleteUnmatched matched rest m
    else deleteUnmatched matched rest (pidDel m p.id)

/-- One whole reconciliation pass on parsed instances: returns the final
matched-id set, the updated project list and the updated pid map. -/
def reconcileAux (env : Env) (instances : List PhpupListedInstance)
    (st : StoreState) : List String × List Project × PidMap :=
  let ds := pass1Decisions instances st.projects []
  let ps1 := applyDecisions st.projects ds
  let unmatched := unmatchedOf instances 0 (matchedIdxsOf ds)
  let pr :=
    if unmatched.length > 0 then
      pass2Collect env st.selectedProjectId st.settings unmatched ps1
        (matchedIdsOf st.projects ds)
    else (matchedIdsOf st.projects ds, [])
  (pr.1,
   finalizeProjects (handleIds st.handles) pr.1 ps1,
   deleteUnmatched pr.1 ps1
     (applyAssigns st.runningPids (assignsOf st.projects ds ++ pr.2)))

/-- Reconciliation on parsed instances, as a state transformer. -/
def reconcileCore (env : Env) (instances : List PhpupListedInstance)
    (st : StoreState) : StoreState :=
  { st with
    projects := (reconcileAux env instances st).2.1,
    runningPids := (reconcileAux env instances st).2.2 }

/-- `refreshAllStatuses` (useStore.ts:1572): list the external instances
(a rejected listing propagates) and reconcile. -/
def refreshAllStatuses (env : Env) (st : StoreState) : Except Unit StoreState :=
  match env.listCmd with
  | .error e => .error e
  | .ok out => .ok (reconcileCore env (parsePhpupListOutput out) st)

/-! ### LifecycleController (useStore.ts:1215, 1275-1416, 1500-1570) -/

/-- `validateSettings` (useStore.ts:1215). -/
def validateSettings (s : ProjectSettings) : List String :=
  (match jsParseInt s.port with
   | none => ["Invalid port: " ++ s.port ++ " (must be 1-65535)"]
   | some n =>
     if n < 1 ∨ n > 65535 then ["Invalid port: " ++ s.port ++ " (must be 1-65535)"]
     else []) ++
  (if jsTruthyS s.host ∧ ¬(s.host ≠ "" ∧ s.host.data.all isWordDotDash) then
    ["Invalid host: " ++ s.host]
   else []) ++
  (if jsTruthyS s.domain ∧ ¬(s.domain ≠ "" ∧ s.domain.data.all isWordDotDash) then
    ["Invalid domain: " ++ s.domain]
   else []) ++
  (if s.phpThreads ≠ "auto" then
    match jsParseInt s.phpThreads with
    | none => ["Invalid PHP threads: " ++ s.phpThreads ++ " (must be 1-256 or \"auto\")"]
    | some t =>
      if t < 1 ∨ t > 256 then
        ["Invalid PHP threads: " ++ s.phpThreads ++ " (must be 1-256 or \"auto\")"]
      else []
   else [])

/-- Argument list built deterministically by `startProject`
(useStore.ts:1308-1320). -/
def buildArgs (settings : ProjectSettings) (p : Project) : List String :=
  ["--port", p.port, "--docroot", p.docroot] ++
  (if settings.host ≠ "127.0.0.1" then ["--host", settings.host] else []) ++
  (if jsTruthyS settings.domain then ["--domain", settings.domain] else []) ++
  (if jsTruthyS settings.phpThreads ∧ settings.phpThreads ≠ "auto" then
    ["--php-threads", settings.phpThreads] else []) ++
  (if settings.httpsMode ≠ "off" then ["--https", settings.httpsMode] else []) ++
  (if settings.workerMode then ["--worker"] else []) ++
  (if settings.watchMode then ["--watch"] else []) ++
  (if !settings.compression then ["--no-compression"] else []) ++
  (if settings.openBrowser then ["--open"] else ["--no-open"]) ++
  (if settings.xdebug then ["--xdebug"] else [])

/-- Outcome of the synchronous prefix of `startProject`, up to and
including the decision whether `command.spawn()` is invoked. -/
inductive StartOutcome where
  | badIndex
  | alreadyRunning
  | invalid (errors : List String)
  | conflict (suggested : String)
  | noFreePort
  | spawnInitiated (args : List String)
deriving DecidableEq

/-- `startProject` (useStore.ts:1275) from entry to the `command.spawn()`
call: the `isRunning` early return, validation, the port-conflict check
(`isValidPort(port) && await isPortInUse(port)`, both of which may reject),
the override-port application and the `starting` transition.  A project
whose spawn has been initiated is recorded in `pendingSpawns` until the
spawn promise resolves (`spawnResolveOk`/`spawnResolveFail`). -/
def startProjectBegin (env : Env) (st : StoreState) (i : Nat)
    (overridePort : Option String) : Except Unit (StartOutcome × StoreState) :=
  match st.projects[i]? with
  | none => .ok (.badIndex, st)
  | some p =>
    if p.isRunning then .ok (.alreadyRunning, st)
    else
      match validateSettings st.settings with
      | e :: _ =>
        .ok (.invalid (validateSettings st.settings),
          { st with
            projectOutput :=
              "Configuration errors:" ::
                (validateSettings st.settings).map (fun s => "  - " ++ s),
            notifications := st.notifications ++ [e] })
      | [] =>
        let port := jsOr overridePort p.port
        (if isValidPort port then isPortInUse env port else .ok false).bind fun inUse =>
          if inUse then
            (findAvailablePort env port).bind fun suggested =>
            if suggested ≠ "" then
              .ok (.conflict suggested,
                { st with portConflict := some ⟨p.id, suggested⟩ })
            else
              .ok (.noFreePort,
                { st with notifications := st.notifications ++
                    ["Port " ++ port ++ " is in use and no free port found nearby"] })
          else
            let applyOverride := jsTruthyOpt overridePort
            let p1 := if applyOverride then { p with port := port } else p
            let settings1 :=
              if applyOverride then { st.settings with port := port } else st.settings
            let p2 := { p1 with status := .starting }
            .ok (.spawnInitiated (buildArgs settings1 p2),
              { st with
                projects := st.projects.set i p2,
                settings := settings1,
                pendingSpawns := st.pendingSpawns ++ [p.id],
                projectOutput := ["Starting server..."] })

/-- `MAX_OUTPUT_LINES` (useStore.ts:699). -/
def MAX_OUTPUT_LINES : Nat := 1000

/-- `capOutput` (useStore.ts:701): drop the oldest lines beyond the cap. -/
def capOutput (output : List String) : List String :=
  if output.length > MAX_OUTPUT_LINES then
    output.drop (output.length - MAX_OUTPUT_LINES)
  else output

/-- Resolution of `await command.spawn()` (useStore.ts:1386-1388): register
the handle with a fresh `serverReady = false` flag and mark the project
`isRunning`. -/
def spawnResolveOk (st : StoreState) (i : Nat) : StoreState :=
  match st.projects[i]? with
  | none => st
  | some p =>
    if st.pendingSpawns.contains p.id then
      { st with
        pendingSpawns := st.pendingSpawns.erase p.id,
        handles := st.handles ++ [⟨p.id, false, ["Starting server..."]⟩],
        projects := st.projects.set i { p with isRunning := true } }
    else st

/-- The `catch` of `startProject` (useStore.ts:1396-1400): spawn threw, the
project is marked `crashed` and a notification is emitted. -/
def spawnResolveFail (st : StoreState) (i : Nat) : StoreState :=
  match st.projects[i]? with
  | none => st
  | some p =>
    if st.pendingSpawns.contains p.id then
      { st with
        pendingSpawns := st.pendingSpawns.erase p.id,
        projects := st.projects.set i { p with status := .crashed },
        notifications := st.notifications ++ ["Failed to start " ++ p.name] }
    else st

/-- Readiness keyword scan of the stdout/stderr handlers
(useStore.ts:1333-1338). -/
def hasReadyKeyword (lower : String) : Bool :=
  containsSub lower.data "started".data ||
  containsSub lower.data "listening".data ||
  containsSub lower.data "serving".data ||
  containsSub lower.data "running".data ||
  containsSub lower.data "ready".data

/-- One `data` event of the stdout or stderr handler (useStore.ts:1330-1355,
both handlers are identical): append to the bounded buffer and, on the first
readiness keyword, set `serverReady` and transition to `running`. -/
def procDataEvent (st : StoreState) (i : Nat) (data : String) : StoreState :=
  match st.projects[i]? with
  | none => st
  | some p =>
    match handleGet st.handles p.id with
    | none => st
    | some h =>
      { st with
        handles := handleSet st.handles p.id
          { h with
            output := capOutput (h.output ++ [data]),
            serverReady := h.serverReady ||
              (!h.serverReady && hasReadyKeyword (lowerStr data)) },
        projects :=
          if !h.serverReady && hasReadyKeyword (lowerStr data) then
            st.projects.set i { p with status := .running }
          else st.projects,
        projectOutput :=
          if st.selectedProjectId = some p.id then capOutput (h.output ++ [data])
          else st.projectOutput }

/-- `payload && typeof payload === "object" && "code" in payload &&
payload.code !== 0` with the payload modelled as `Option Int`. -/
def closeCodeNonZero : Option Int → Bool
  | none => false
  | some c => c ≠ 0

/-- The `close` event handler (useStore.ts:1357-1374): clear `isRunning` and
the handle, then classify crash (non-zero exit while `isRunning`) versus
clean stop. -/
def procCloseEvent (st : StoreState) (i : Nat) (code : Option Int) : StoreState :=
  match st.projects[i]? with
  | none => st
  | some p =>
    { st with
      handles := handleDel st.handles p.id,
      projects := st.projects.set i
        { p with
          isRunning := false,
          status := if p.isRunning && closeCodeNonZero code then .crashed
            else .stopped },
      notifications :=
        if p.isRunning && closeCodeNonZero code then
          st.notifications ++ [p.name ++ " crashed"]
        else st.notifications }

/-- The `error` event handler (useStore.ts:1376-1384): force `crashed`
(the handle entry is not removed by this handler). -/
def procErrorEvent (st : StoreState) (i : Nat) (err : String) : StoreState :=
  match st.projects[i]? with
  | none => st
  | some p =>
    { st with
      projects := st.projects.set i { p with isRunning := false, status := .crashed },
      notifications := st.notifications ++ [p.name ++ ": " ++ err] }

/-- The 3-second grace timer (useStore.ts:1391-1395): promote `starting` to
`running` if the process is still alive and no readiness signal was seen. -/
def graceTimeoutEvent (st : StoreState) (i : Nat) : StoreState :=
  match st.projects[i]? with
  | none => st
  | some p =>
    if p.status = .starting ∧ p.isRunning then
      { st with projects := st.projects.set i { p with status := .running } }
    else st

/-- The candidate-killing loop of the stop last resort
(useStore.ts:1548-1556): skip the already-tried tracked pid, kill each
candidate, and stop as soon as the project no longer serves. -/
def tryCandidates (env : Env) (sel : Option String) (settings : ProjectSettings)
    (p : Project) (skip : Option String) : List String → Except Unit Bool
  | [] => .ok false
  | c :: rest =>
    if some c = skip then tryCandidates env sel settings p skip rest
    else do
      let k ← env.killPid c
      if !k then tryCandidates env sel settings p skip rest
      else if !isProjectServingFrankenphp env sel settings p then .ok true
      else tryCandidates env sel settings p skip rest

/-- Candidate pids of the stop last resort (useStore.ts:1527-1546): exact
port matches are authoritative; a path match is added only when it is
unambiguous (exactly one). -/
def stopCandidates (p : Project) (instances : List PhpupListedInstance) :
    List String :=
  let portC :=
    if isValidPort p.port then
      (instances.filter (fun inst => inst.port = some p.port)).foldl
        (fun acc inst => ordInsert acc inst.pid) []
    else []
  let pathC := instances.filter fun inst =>
    jsTruthyOpt inst.pathFragment &&
      projectPathMatchesFragment p.path (inst.pathFragment.getD "")
  match pathC with
  | [one] => ordInsert portC one.pid
  | _ => portC

/-- Kill phase of `stopProject` (useStore.ts:1500-1557): kill the held
handle, then the tracked pid, then by port, then the safe listed candidates.
Returns the `killed` verdict and the state (handle and tracked pid removed);
`projects` is untouched by this phase. -/
def stopKillPhase (env : Env) (st : StoreState) (p : Project) :
    Except Unit (Bool × StoreState) := do
  let st1 ←
    match handleGet st.handles p.id with
    | some _ => do
      let _ ← env.childKill p.id
      pure { st with handles := handleDel st.handles p.id }
    | none => pure st
  let pidOpt := pidGet st1.runningPids p.id
  let (killed1, st2) ←
    match pidOpt with
    | some pid => do
      let k ← env.killPid pid
      pure (k, { st1 with runningPids := pidDel st1.runningPids p.id })
    | none => pure (false, st1)
  let killed2 ←
    if !killed1 && isValidPort p.port then do
      let _ ← env.portKill p.port
      pure (!isPortServingFrankenphp env st2.selectedProjectId st2.settings p)
    else pure killed1
  let killed3 ←
    if !killed2 then do
      let instances ← listPhpupInstances env
      tryCandidates env st2.selectedProjectId st2.settings p pidOpt
        (stopCandidates p instances)
    else pure killed2
  pure (killed3, st2)

/-- End of the kill phase (useStore.ts:1559-1563): force the project to
`stopped` and log the verdict. -/
def stopFinalize (st2 : StoreState) (i : Nat) (p : Project) (killed : Bool) :
    StoreState :=
  { st2 with
    projects := st2.projects.set i { p with isRunning := false, status := .stopped },
    projectOutput := st2.projectOutput ++
      [if killed then "[Server stopped]"
       else "[Stop requested, verifying process state...]"] }

/-- Post-reconciliation warning (useStore.ts:1566-1569): if the project
still reports running, log and notify. -/
def stopWarnTail (st4 : StoreState) (i : Nat) (name : String) : StoreState :=
  match st4.projects[i]? with
  | some pAfter =>
    if pAfter.isRunning then
      { st4 with
        projectOutput := st4.projectOutput ++ ["[Server may still be running]"],
        notifications := st4.notifications ++ [name ++ " is still running"] }
    else st4
  | none => st4

/-- `stopProject` (useStore.ts:1500-1570): the kill phase, then force
`stopped`, re-run reconciliation, and warn when the project still reports
running.  Any rejected kill or listing propagates. -/
def stopProjectRun (env : Env) (st : StoreState) (i : Nat) :
    Except Unit StoreState :=
  match st.projects[i]? with
  | none => .ok st
  | some p => do
    let r ← stopKillPhase env st p
    let st4 ← refreshAllStatuses env (stopFinalize r.2 i p r.1)
    pure (stopWarnTail st4 i p.name)

/-- The atomic steps of the lifecycle/reconciliation engine, at the
granularity of the `await` boundaries in the source. -/
inductive StepEv where
  | startBegin (i : Nat) (overridePort : Option String)
  | spawnOk (i : Nat)
  | spawnFail (i : Nat)
  | procData (i : Nat) (data : String)
  | procClose (i : Nat) (code : Option Int)
  | procError (i : Nat) (err : String)
  | graceTimeout (i : Nat)
  | stopProj (i : Nat)
  | reconcile

/-- One engine step as a state transformer. -/
def step (env : Env) (st : StoreState) : StepEv → Except Unit StoreState
  | .startBegin i op => (startProjectBegin env st i op).map Prod.snd
  | .spawnOk i => .ok (spawnResolveOk st i)
  | .spawnFail i => .ok (spawnResolveFail st i)
  | .procData i d => .ok (procDataEvent st i d)
  | .procClose i c => .ok (procCloseEvent st i c)
  | .procError i e => .ok (procErrorEvent st i e)
  | .graceTimeout i => .ok (graceTimeoutEvent st i)
  | .stopProj i => stopProjectRun env st i
  | .reconcile => refreshAllStatuses env st

/-! ### Specification-side definitions

These render the claims' own words, independently of the implementation,
for refinement-style comparison. -/

/-- The status-transition edges exactly as claim C2 states them:
`stopped -> starting -> running -> {stopped, crashed}`,
`starting -> crashed`, and `crashed -> stopped`. -/
def claimedEdgeC2 : ProjectStatus → ProjectStatus → Bool
  | .stopped, .starting => true
  | .starting, .running => true
  | .running, .stopped => true
  | .running, .crashed => true
  | .starting, .crashed => true
  | .crashed, .stopped => true
  | _, _ => false

/-- Amended status-edge discipline, per engine step: a user start moves the
started project to `starting`; a failed spawn or a process `error` event
forces `crashed`; a readiness keyword forces `running`; a process exit moves
to `stopped` or `crashed`; the grace timeout promotes exactly
`starting -> running`; a stop leaves the project `stopped` (or `running`
again if the post-stop reconciliation still finds the server); and a
reconciliation pass may move any project directly to `running` (adopting an
externally started server, skipping `starting`) or to `stopped` (but never
off `crashed`). -/
def amendedEdge : StepEv → ProjectStatus → ProjectStatus → Prop
  | .startBegin _ _, _, s' => s' = .starting
  | .spawnOk _, _, _ => False
  | .spawnFail _, _, s' => s' = .crashed
  | .procData _ _, _, s' => s' = .running
  | .procClose _ _, _, s' => s' = .stopped ∨ s' = .crashed
  | .procError _ _, _, s' => s' = .crashed
  | .graceTimeout _, s, s' => s = .starting ∧ s' = .running
  | .stopProj _, _, s' => s' = .stopped ∨ s' = .running
  | .reconcile, s, s' => s' = .running ∨ (s' = .stopped ∧ s ≠ .crashed)

/-- The first free port as claim C6 words it: scan `start+1 .. start+100`
in increasing order, never beyond 65535, and return the first port that is
not in use. -/
def firstFreePort (inUse : Nat → Bool) (start : Nat) : Option Nat :=
  (((List.range 100).map fun i => start + 1 + i).filter fun p => p ≤ 65535).find?
    fun p => !inUse p

/-- The rejection premise of claim C8, amended to match the truthiness
guards of `validateSettings`: the port parses outside 1–65535, a non-empty
host or domain fails the `[\w.-]+` character-class check, or a non-`"auto"`
thread count parses outside 1–256. -/
def settingsInvalidSpec (s : ProjectSettings) : Prop :=
  (match jsParseInt s.port with
   | none => True
   | some n => n < 1 ∨ n > 65535) ∨
  (s.host ≠ "" ∧ ¬(s.host.data.all isWordDotDash = true)) ∨
  (s.domain ≠ "" ∧ ¬(s.domain.data.all isWordDotDash = true)) ∨
  (s.phpThreads ≠ "auto" ∧
    (match jsParseInt s.phpThreads with
     | none => True
     | some t => t < 1 ∨ t > 256))

/-! ### Concrete fixtures for counterexamples and witnesses -/

/-- Default settings as initialised in the store (useStore.ts:779). -/
def defaultSettings : ProjectSettings :=
  { host := "127.0.0.1", port := "8000", domain := "", docroot := "./public",
    phpThreads := "auto", httpsMode := "off", workerMode := false,
    watchMode := false, compression := true, openBrowser := true,
    xdebug := false }

/-- A probe-free environment: every port probe reports exit code 1 (free),
the listing is empty, every HTTP probe and config read rejects. -/
def quietEnv : Env :=
  { portProbeExec := fun _ => .ok 1,
    listCmd := .ok "",
    curl := fun _ => .error (),
    configCat := fun _ => .error (),
    childKill := fun _ => .ok (),
    killPid := fun _ => .ok false,
    portKill := fun _ => .ok () }

/-- The end-to-end project of claim C3: path `/p/app`, port `8000`. -/
def projC3 : Project :=
  { id := "p1", name := "app", path := "/p/app", port := "8000",
    docroot := "./public", isRunning := false, status := .stopped }

/-- `phpup --list` output of claim C3: one line with pid `123`, `*:8000`
and a truncated path fragment `.../app` before the `.phpup` marker. -/
def listOutC3 : String :=
  "123   frankenphp   TCP *:8000   .../app .phpup/Caddyfile\n"

/-- Environment of claim C3: the listing returns `listOutC3`. -/
def envC3 : Env := { quietEnv with listCmd := .ok listOutC3 }

/-- Store of claim C3: the single tracked project, stopped, no handles. -/
def stC3 : StoreState :=
  { projects := [projC3], runningPids := [], handles := [],
    pendingSpawns := [], portConflict := none, notifications := [],
    projectOutput := [], settings := defaultSettings,
    selectedProjectId := none }

/-- Counterexample scenario of claim C2: same external reality as C3, but
centred on the `stopped -> running` adoption; kept as its own fixture. -/
def stC2 : StoreState :=
  { projects := [{ projC3 with id := "c2", name := "c2app" }],
    runningPids := [], handles := [], pendingSpawns := [],
    portConflict := none, notifications := [], projectOutput := [],
    settings := defaultSettings, selectedProjectId := none }

/-- Environment of the C2 counterexample. -/
def envC2 : Env := { quietEnv with listCmd := .ok listOutC3 }

/-- C1 counterexample: settings whose port does not validate. -/
def stC1 : StoreState :=
  { stC3 with
    projects := [{ projC3 with id := "c1" }],
    settings := { defaultSettings with port := "abc" } }

/-- C1 counterexample environment: port 8000 is bound (probe exits 0). -/
def envC1 : Env := { quietEnv with portProbeExec := fun _ => .ok 0 }

/-- C1 witness environment: ports 8000 and 8001 bound, 8002 free. -/
def envC1w : Env :=
  { quietEnv with
    portProbeExec := fun s => .ok (if s = "8000" ∨ s = "8001" then 0 else 1) }

/-- C1 witness state: a stopped project on bound port 8000, valid settings. -/
def stC1w : StoreState := { stC3 with projects := [{ projC3 with id := "c1w" }] }

/-- C6 witness environment: port 8001 bound, everything else free. -/
def envC6 : Env :=
  { quietEnv with portProbeExec := fun s => .ok (if s = "8001" then 0 else 1) }

/-- C8 counterexample: an empty host (which fails `[\w.-]+` but is skipped
by the truthiness guard), everything else valid, port free. -/
def stC8 : StoreState :=
  { stC3 with
    projects := [{ projC3 with id := "c8" }],
    settings := { defaultSettings with host := "" } }

/-- C8 witness state: thread count `"999"`, outside 1–256. -/
def stC8w : StoreState :=
  { stC3 with
    projects := [{ projC3 with id := "c8w" }],
    settings := { defaultSettings with phpThreads := "999" } }

/-- C9 counterexample environment: the `phpup --list` probe rejects. -/
def envC9 : Env := { quietEnv with listCmd := .error () }

/-- C9 state fixture. -/
def stC9 : StoreState := { stC3 with projects := [{ projC3 with id := "c9" }] }

/-- C9 witness environment: the listing succeeds but every HTTP probe and
config read rejects, and one unmatched instance forces the probing pass. -/
def envC9w : Env :=
  { quietEnv with listCmd := .ok "77 frankenphp TCP *:9999\n" }

/-- C9 witness state: a project with a valid port that must be HTTP-probed. -/
def stC9w : StoreState :=
  { stC3 with projects := [{ projC3 with id := "c9w", path := "/q/other" }] }

/-- C4 witness state: two projects, one matched by path, one probed. -/
def stC4 : StoreState :=
  { stC3 with
    projects := [{ projC3 with id := "c4a" },
                 { projC3 with id := "c4b", path := "/q/other", port := "9000" }] }

/-- C4 witness environment: one listed instance matching `/p/app`. -/
def envC4 : Env := { quietEnv with listCmd := .ok listOutC3 }

/-- C5 witness state: a crashed project no pass will match. -/
def stC5 : StoreState :=
  { stC3 with
    projects :=
      [{ projC3 with id := "c5", path := "/q/zzz", port := "7000", status := .crashed }] }

/-- C5 witness environment. -/
def envC5 : Env := { quietEnv with listCmd := .ok listOutC3 }

/-- C10 witness instances: a single listed instance with fragment `/app`. -/
def instC10 : List PhpupListedInstance :=
  parsePhpupListOutput listOutC3

/-- C10 witness projects: the first does not path-match the instance, the
second does. -/
def psC10 : List Project :=
  [{ projC3 with id := "c10a", path := "/z/nomatch" },
   { projC3 with id := "c10b", path := "/p/app" }]

/-- C2 witness fixtures: a reconcile step on a stopped project with an
empty listing. -/
def stC2w : StoreState :=
  { stC3 with projects := [{ projC3 with id := "c2w" }] }

/-- C3-style witness state for the C7 claim is not needed (no hypothesis);
the C2 witness environment has an empty listing. -/
def envC2w : Env := quietEnv

/-- The single project of the C2 witness state. -/
def pC2w : Project := { projC3 with id := "c2w" }

/-- State after the C2 witness reconcile step. -/
def stC2wAfter : StoreState := reconcileCore envC2w (parsePhpupListOutput "") stC2w

/-- State after one reconciliation of the C4 witness state. -/
def stC4After : StoreState := reconcileCore envC4 (parsePhpupListOutput listOutC3) stC4

/-- State after one reconciliation of the C5 witness state. -/
def stC5After : StoreState := reconcileCore envC5 (parsePhpupListOutput listOutC3) stC5

/-- The crashed project of the C5 witness state. -/
def pC5 : Project :=
  { projC3 with id := "c5", path := "/q/zzz", port := "7000", status := .crashed }

/-- The C1 witness project. -/
def pC1w : Project := { projC3 with id := "c1w" }

/-- The C8 witness project. -/
def pC8w : Project := { projC3 with id := "c8w" }

/-- The first C10 witness project (no path match with the instance). -/
def pC10a : Project := { projC3 with id := "c10a", path := "/z/nomatch" }

/-! ### Infrastructure lemmas -/

theorem adoptPort_idem (o : Option String) (x : String) :
    adoptPort o (adoptPort o x) = adoptPort o x := by
  cases o with
  | none => rfl
  | some s =>
    by_cases h : s = "" <;> simp [adoptPort, h]

theorem applyDecision_path (p : Project) (d : Option (Nat × PhpupListedInstance)) :
    (applyDecision p d).path = p.path := by
  cases d with
  | none => rfl
  | some di => rfl

theorem applyDecision_id (p : Project) (d : Option (Nat × PhpupListedInstance)) :
    (applyDecision p d).id = p.id := by
  cases d with
  | none => rfl
  | some di => rfl

theorem applyDecision_status (p : Project) (d : Option (Nat × PhpupListedInstance)) :
    (applyDecision p d).status = p.status := by
  cases d with
  | none => rfl
  | some di => rfl

theorem applyDecision_isRunning (p : Project) (d : Option (Nat × PhpupListedInstance)) :
    (applyDecision p d).isRunning = p.isRunning := by
  cases d with
  | none => rfl
  | some di => rfl

theorem applyDecision_fix (p q : Project) (d : Option (Nat × PhpupListedInstance))
    (h : q.port = (applyDecision p d).port) : applyDecision q d = q := by
  cases d with
  | none => rfl
  | some di =>
    obtain ⟨k, inst⟩ := di
    have hq : adoptPort inst.port q.port = q.port := by
      rw [h]
      show adoptPort inst.port (adoptPort inst.port p.port) = adoptPort inst.port p.port
      exact adoptPort_idem _ _
    show ({ q with port := adoptPort inst.port q.port } : Project) = q
    rw [hq]

theorem finalizeOne_path (hs ids : List String) (p : Project) :
    (finalizeOne hs ids p).path = p.path := by
  unfold finalizeOne
  split
  · rfl
  · split
    · rfl
    · split <;> rfl

theorem finalizeOne_id (hs ids : List String) (p : Project) :
    (finalizeOne hs ids p).id = p.id := by
  unfold finalizeOne
  split
  · rfl
  · split
    · rfl
    · split <;> rfl

theorem finalizeOne_port (hs ids : List String) (p : Project) :
    (finalizeOne hs ids p).port = p.port := by
  unfold finalizeOne
  split
  · rfl
  · split
    · rfl
    · split <;> rfl

theorem finalizeOne_status (hs ids : List String) (p : Project) :
    (finalizeOne hs ids p).status =
      if hs.contains p.id then p.status
      else if ids.contains p.id then .running
      else if p.status = .crashed then .crashed
      else .stopped := by
  by_cases hh : p.id ∈ hs
  · simp [finalizeOne, hh]
  · by_cases hm : p.id ∈ ids
    · by_cases hr : p.status = .running <;> simp [finalizeOne, hh, hm, hr]
    · by_cases hc : p.status = .crashed <;> simp [finalizeOne, hh, hm, hc]

theorem finalizeOne_isRunning (hs ids : List String) (p : Project) :
    (finalizeOne hs ids p).isRunning = ids.contains p.id := by
  unfold finalizeOne
  split
  · rfl
  · split
    · rfl
    · split <;> rfl

theorem finalizeOne_idem (hs ids : List String) (p : Project) :
    finalizeOne hs ids (finalizeOne hs ids p) = finalizeOne hs ids p := by
  by_cases hh : p.id ∈ hs
  · simp [finalizeOne, hh]
  · by_cases hm : p.id ∈ ids
    · by_cases hr : p.status = .running <;> simp [finalizeOne, hh, hm, hr]
    · by_cases hc : p.status = .crashed <;> simp [finalizeOne, hh, hm, hc]

theorem pidSet_id (m : PidMap) (k v : String) (h : pidGet m k = some v) :
    pidSet m k v = m := by
  induction m with
  | nil => simp [pidGet] at h
  | cons kv rest ih =>
    obtain ⟨k', v'⟩ := kv
    by_cases hk : k' = k
    · subst hk
      simp [pidGet] at h
      simp [pidSet, h]
    · simp [pidGet, hk] at h
      simp [pidSet, hk, ih h]

theorem pidGet_pidSet_ne (m : PidMap) (k k' v : String) (h : k ≠ k') :
    pidGet (pidSet m k v) k' = pidGet m k' := by
  induction m with
  | nil =>
    show pidGet [(k, v)] k' = none
    simp [pidGet, h]
  | cons kv rest ih =>
    obtain ⟨k0, v0⟩ := kv
    by_cases hk : k0 = k
    · subst hk
      simp only [pidSet, if_pos rfl]
      show (if k0 = k' then some v else pidGet rest k') =
        (if k0 = k' then some v0 else pidGet rest k')
      rw [if_neg h, if_neg h]
    · simp only [pidSet, if_neg hk]
      show (if k0 = k' then some v0 else pidGet (pidSet rest k v) k') =
        (if k0 = k' then some v0 else pidGet rest k')
      by_cases hc : k0 = k'
      · rw [if_pos hc, if_pos hc]
      · rw [if_neg hc, if_neg hc, ih]

theorem pidGet_pidDel_self (m : PidMap) (k : String) :
    pidGet (pidDel m k) k = none := by
  induction m with
  | nil => rfl
  | cons kv rest ih =>
    obtain ⟨k0, v0⟩ := kv
    by_cases hk : k0 = k
    · simpa [pidDel, hk] using ih
    · simpa [pidDel, pidGet, hk] using ih

theorem contains_of_mem {l : List String} {a : String} (h : a ∈ l) :
    l.contains a = true := by
  simpa using h

theorem contains_of_not_mem {l : List String} {a : String} (h : a ∉ l) :
    l.contains a = false := by
  simpa using h

theorem pidGet_pidDel_ne (m : PidMap) (k k' : String) (h : k ≠ k') :
    pidGet (pidDel m k) k' = pidGet m k' := by
  induction m with
  | nil => rfl
  | cons kv rest ih =>
    obtain ⟨k0, v0⟩ := kv
    show pidGet (if k0 = k then pidDel rest k else (k0, v0) :: pidDel rest k) k' =
      (if k0 = k' then some v0 else pidGet rest k')
    by_cases hk : k0 = k
    · rw [if_pos hk, if_neg (fun hc : k0 = k' => h (hk.symm.trans hc))]
      exact ih
    · rw [if_neg hk]
      show (if k0 = k' then some v0 else pidGet (pidDel rest k) k') =
        (if k0 = k' then some v0 else pidGet rest k')
      by_cases hc : k0 = k'
      · rw [if_pos hc, if_pos hc]
      · rw [if_neg hc, if_neg hc, ih]

theorem pidDel_id (m : PidMap) (k : String) (h : pidGet m k = none) :
    pidDel m k = m := by
  induction m with
  | nil => rfl
  | cons kv rest ih =>
    obtain ⟨k0, v0⟩ := kv
    by_cases hk : k0 = k
    · rw [show pidGet ((k0, v0) :: rest) k = some v0 from by simp [pidGet, hk]] at h
      exact absurd h (by simp)
    · rw [show pidGet ((k0, v0) :: rest) k = pidGet rest k from by simp [pidGet, hk]] at h
      simp [pidDel, hk, ih h]

theorem applyAssigns_id (m : PidMap) (asgs : List (String × String))
    (h : ∀ kv ∈ asgs, pidGet m kv.1 = some kv.2) : applyAssigns m asgs = m := by
  induction asgs with
  | nil => rfl
  | cons kv rest ih =>
    obtain ⟨k, v⟩ := kv
    have h1 : pidGet m k = some v := h (k, v) (List.mem_cons_self _ _)
    show applyAssigns (pidSet m k v) rest = m
    rw [pidSet_id m k v h1]
    exact ih fun kv hkv => h kv (List.mem_cons_of_mem _ hkv)

theorem pidGet_pidSet_self (m : PidMap) (k v : String) :
    pidGet (pidSet m k v) k = some v := by
  induction m with
  | nil => simp [pidSet, pidGet]
  | cons kv rest ih =>
    obtain ⟨k0, v0⟩ := kv
    by_cases hk : k0 = k
    · simp [pidSet, pidGet, hk]
    · simp [pidSet, pidGet, hk, ih]

theorem applyAssigns_get_nokey (m : PidMap) (asgs : List (String × String))
    (k : String) (h : ∀ kv ∈ asgs, kv.1 ≠ k) :
    pidGet (applyAssigns m asgs) k = pidGet m k := by
  induction asgs generalizing m with
  | nil => rfl
  | cons kv rest ih =>
    obtain ⟨k0, v0⟩ := kv
    have hk : k0 ≠ k := h (k0, v0) (List.mem_cons_self _ _)
    show pidGet (applyAssigns (pidSet m k0 v0) rest) k = pidGet m k
    rw [ih (pidSet m k0 v0) fun kv hkv => h kv (List.mem_cons_of_mem _ hkv)]
    exact pidGet_pidSet_ne m k0 k v0 hk

theorem applyAssigns_get_key (m : PidMap) (asgs : List (String × String))
    (k v : String) (hnd : (asgs.map Prod.fst).Nodup) (hmem : (k, v) ∈ asgs) :
    pidGet (applyAssigns m asgs) k = some v := by
  induction asgs generalizing m with
  | nil => simp at hmem
  | cons kv rest ih =>
    obtain ⟨k0, v0⟩ := kv
    simp only [List.map_cons, List.nodup_cons] at hnd
    rcases List.mem_cons.mp hmem with heq | hrest
    · have hk : k0 = k := (Prod.mk.injEq .. ▸ heq.symm).1
      have hv : v0 = v := (Prod.mk.injEq .. ▸ heq.symm).2
      subst hk; subst hv
      show pidGet (applyAssigns (pidSet m k0 v0) rest) k0 = some v0
      rw [applyAssigns_get_nokey]
      · exact pidGet_pidSet_self m k0 v0
      · intro kv hkv hc
        exact hnd.1 (hc ▸ List.mem_map_of_mem Prod.fst hkv)
    · exact ih (pidSet m k0 v0) hnd.2 hrest

theorem deleteUnmatched_get_mem (ids : List String) (ps : List Project)
    (m : PidMap) (k : String) (h : k ∈ ids) :
    pidGet (deleteUnmatched ids ps m) k = pidGet m k := by
  induction ps generalizing m with
  | nil => rfl
  | cons p rest ih =>
    by_cases hp : ids.contains p.id
    · show pidGet (if ids.contains p.id then deleteUnmatched ids rest m
        else deleteUnmatched ids rest (pidDel m p.id)) k = pidGet m k
      rw [if_pos hp, ih]
    · show pidGet (if ids.contains p.id then deleteUnmatched ids rest m
        else deleteUnmatched ids rest (pidDel m p.id)) k = pidGet m k
      have hne : p.id ≠ k := by
        intro hc
        exact hp (hc ▸ contains_of_mem h)
      rw [if_neg hp, ih (pidDel m p.id), pidGet_pidDel_ne m p.id k hne]

theorem deleteUnmatched_none_mono (ids : List String) (ps : List Project)
    (m : PidMap) (k : String) (h : pidGet m k = none) :
    pidGet (deleteUnmatched ids ps m) k = none := by
  induction ps generalizing m with
  | nil => exact h
  | cons p rest ih =>
    show pidGet (if ids.contains p.id then deleteUnmatched ids rest m
      else deleteUnmatched ids rest (pidDel m p.id)) k = none
    by_cases hp : ids.contains p.id
    · rw [if_pos hp]; exact ih m h
    · rw [if_neg hp]
      refine ih (pidDel m p.id) ?_
      by_cases hk : p.id = k
      · rw [hk]; exact pidGet_pidDel_self m k
      · rw [pidGet_pidDel_ne m p.id k hk]; exact h

theorem deleteUnmatched_get_deleted (ids : List String) (ps : List Project)
    (m : PidMap) (p : Project) (hmem : p ∈ ps) (h : ids.contains p.id = false) :
    pidGet (deleteUnmatched ids ps m) p.id = none := by
  induction ps generalizing m with
  | nil => simp at hmem
  | cons q rest ih =>
    show pidGet (if ids.contains q.id then deleteUnmatched ids rest m
      else deleteUnmatched ids rest (pidDel m q.id)) p.id = none
    rcases List.mem_cons.mp hmem with heq | hrest
    · subst heq
      rw [if_neg (show ¬ids.contains p.id = true from by rw [h]; exact Bool.false_ne_true)]
      exact deleteUnmatched_none_mono ids rest (pidDel m p.id) p.id
        (pidGet_pidDel_self m p.id)
    · by_cases hq : ids.contains q.id
      · rw [if_pos hq]; exact ih m hrest
      · rw [if_neg hq]; exact ih (pidDel m q.id) hrest

theorem deleteUnmatched_id (ids : List String) (ps : List Project) (m : PidMap)
    (h : ∀ p ∈ ps, ids.contains p.id = false → pidGet m p.id = none) :
    deleteUnmatched ids ps m = m := by
  induction ps with
  | nil => rfl
  | cons p rest ih =>
    show (if ids.contains p.id then deleteUnmatched ids rest m
      else deleteUnmatched ids rest (pidDel m p.id)) = m
    by_cases hp : ids.contains p.id
    · rw [if_pos hp]
      exact ih fun q hq => h q (List.mem_cons_of_mem _ hq)
    · rw [if_neg hp,
        pidDel_id m p.id (h p (List.mem_cons_self _ _) (by simpa using hp))]
      exact ih fun q hq => h q (List.mem_cons_of_mem _ hq)

/-! ### First-pass structural lemmas -/

theorem pass1Decisions_congr (instances : List PhpupListedInstance) :
    ∀ (ps qs : List Project) (idxs : List Nat),
      ps.map Project.path = qs.map Project.path →
      pass1Decisions instances ps idxs = pass1Decisions instances qs idxs := by
  intro ps
  induction ps with
  | nil =>
    intro qs idxs h
    rw [show qs = [] from by simpa using (List.map_eq_nil_iff.mp h.symm)]
  | cons p rest ih =>
    intro qs idxs h
    cases qs with
    | nil => simp at h
    | cons q qrest =>
      simp only [List.map_cons, List.cons.injEq] at h
      show (match findMatch p.path instances 0 idxs with
            | none => none :: pass1Decisions instances rest idxs
            | some (i, inst) =>
              some (i, inst) :: pass1Decisions instances rest (idxs ++ [i])) =
           (match findMatch q.path instances 0 idxs with
            | none => none :: pass1Decisions instances qrest idxs
            | some (i, inst) =>
              some (i, inst) :: pass1Decisions instances qrest (idxs ++ [i]))
      rw [h.1]
      cases findMatch q.path instances 0 idxs with
      | none => simp [ih qrest idxs h.2]
      | some di => simp [ih qrest (idxs ++ [di.1]) h.2]

theorem applyDecisions_map_path (ps : List Project)
    (ds : List (Option (Nat × PhpupListedInstance))) :
    (applyDecisions ps ds).map Project.path = ps.map Project.path := by
  induction ps generalizing ds with
  | nil => cases ds <;> rfl
  | cons p rest ih =>
    cases ds with
    | nil => rfl
    | cons d drest =>
      show ((applyDecision p d :: applyDecisions rest drest).map Project.path) = _
      simp [applyDecision_path, ih]

theorem applyDecisions_map_id (ps : List Project)
    (ds : List (Option (Nat × PhpupListedInstance))) :
    (applyDecisions ps ds).map Project.id = ps.map Project.id := by
  induction ps generalizing ds with
  | nil => cases ds <;> rfl
  | cons p rest ih =>
    cases ds with
    | nil => rfl
    | cons d drest =>
      show ((applyDecision p d :: applyDecisions rest drest).map Project.id) = _
      simp [applyDecision_id, ih]

theorem finalizeProjects_map_path (hs ids : List String) (ps : List Project) :
    (finalizeProjects hs ids ps).map Project.path = ps.map Project.path := by
  unfold finalizeProjects
  rw [List.map_map]
  exact List.map_congr_left fun p _ => finalizeOne_path hs ids p

theorem finalizeProjects_map_id (hs ids : List String) (ps : List Project) :
    (finalizeProjects hs ids ps).map Project.id = ps.map Project.id := by
  unfold finalizeProjects
  rw [List.map_map]
  exact List.map_congr_left fun p _ => finalizeOne_id hs ids p

theorem finalizeProjects_map_port (hs ids : List String) (ps : List Project) :
    (finalizeProjects hs ids ps).map Project.port = ps.map Project.port := by
  unfold finalizeProjects
  rw [List.map_map]
  exact List.map_congr_left fun p _ => finalizeOne_port hs ids p

theorem matchedIdsOf_congr : ∀ (ps qs : List Project)
    (ds : List (Option (Nat × PhpupListedInstance))),
    ps.map Project.id = qs.map Project.id →
    matchedIdsOf ps ds = matchedIdsOf qs ds := by
  intro ps
  induction ps with
  | nil =>
    intro qs ds h
    rw [show qs = [] from by simpa using (List.map_eq_nil_iff.mp h.symm)]
  | cons p rest ih =>
    intro qs ds h
    cases qs with
    | nil => simp at h
    | cons q qrest =>
      simp only [List.map_cons, List.cons.injEq] at h
      cases ds with
      | nil => rfl
      | cons d drest =>
        cases d with
        | none => show matchedIdsOf rest drest = matchedIdsOf qrest drest
                  exact ih qrest drest h.2
        | some di =>
          show p.id :: matchedIdsOf rest drest = q.id :: matchedIdsOf qrest drest
          rw [h.1, ih qrest drest h.2]

theorem assignsOf_congr : ∀ (ps qs : List Project)
    (ds : List (Option (Nat × PhpupListedInstance))),
    ps.map Project.id = qs.map Project.id →
    assignsOf ps ds = assignsOf qs ds := by
  intro ps
  induction ps with
  | nil =>
    intro qs ds h
    rw [show qs = [] from by simpa using (List.map_eq_nil_iff.mp h.symm)]
  | cons p rest ih =>
    intro qs ds h
    cases qs with
    | nil => simp at h
    | cons q qrest =>
      simp only [List.map_cons, List.cons.injEq] at h
      cases ds with
      | nil => rfl
      | cons d drest =>
        cases d with
        | none => show assignsOf rest drest = assignsOf qrest drest
                  exact ih qrest drest h.2
        | some di =>
          show (p.id, di.2.pid) :: assignsOf rest drest =
            (q.id, di.2.pid) :: assignsOf qrest drest
          rw [h.1, ih qrest drest h.2]

theorem applyDecisions_fix (F : Project → Project)
    (hF : ∀ p, (F p).port = p.port) :
    ∀ (ps : List Project) (ds : List (Option (Nat × PhpupListedInstance))),
    applyDecisions ((applyDecisions ps ds).map F) ds = (applyDecisions ps ds).map F := by
  intro ps
  induction ps with
  | nil => intro ds; cases ds <;> rfl
  | cons p rest ih =>
    intro ds
    cases ds with
    | nil => rfl
    | cons d drest =>
      show applyDecisions (F (applyDecision p d) :: (applyDecisions rest drest).map F)
          (d :: drest) = _
      show applyDecision (F (applyDecision p d)) d ::
          applyDecisions ((applyDecisions rest drest).map F) drest = _
      rw [applyDecision_fix _ _ _ (hF (applyDecision p d)), ih drest]
      rfl

/-! ### Second-pass structural lemmas -/

theorem isProjectServingFrankenphp_congr (env : Env) (sel : Option String)
    (settings : ProjectSettings) (p q : Project) (hid : p.id = q.id)
    (hpath : p.path = q.path) (hport : p.port = q.port) :
    isProjectServingFrankenphp env sel settings p =
      isProjectServingFrankenphp env sel settings q := by
  unfold isProjectServingFrankenphp getProjectNetworkHints
  rw [hid, hpath, hport]

theorem pass2Collect_congr (env : Env) (sel : Option String)
    (settings : ProjectSettings) (unmatched : List PhpupListedInstance) :
    ∀ (ps qs : List Project) (ids : List String),
    ps.map Project.id = qs.map Project.id →
    ps.map Project.path = qs.map Project.path →
    ps.map Project.port = qs.map Project.port →
    pass2Collect env sel settings unmatched ps ids =
      pass2Collect env sel settings unmatched qs ids := by
  intro ps
  induction ps with
  | nil =>
    intro qs ids h _ _
    rw [show qs = [] from by simpa using (List.map_eq_nil_iff.mp h.symm)]
  | cons p rest ih =>
    intro qs ids hid hpath hport
    cases qs with
    | nil => simp at hid
    | cons q qrest =>
      simp only [List.map_cons, List.cons.injEq] at hid hpath hport
      simp only [pass2Collect]
      rw [hid.1, hport.1,
        isProjectServingFrankenphp_congr env sel settings p q hid.1 hpath.1 hport.1]
      by_cases h1 : ids.contains q.id
      · rw [if_pos h1, if_pos h1]
        exact ih qrest ids hid.2 hpath.2 hport.2
      · rw [if_neg h1, if_neg h1]
        by_cases h2 : !isValidPort q.port
        · rw [if_pos h2, if_pos h2]
          exact ih qrest ids hid.2 hpath.2 hport.2
        · rw [if_neg h2, if_neg h2]
          by_cases h3 : isProjectServingFrankenphp env sel settings q
          · rw [if_pos h3, if_pos h3,
              ih qrest (ids ++ [q.id]) hid.2 hpath.2 hport.2]
          · rw [if_neg h3, if_neg h3]
            exact ih qrest ids hid.2 hpath.2 hport.2

theorem pass2Asg_key (unmatched : List PhpupListedInstance)
    (projectId port k v : String)
    (h : (k, v) ∈ pass2Asg unmatched projectId port) : k = projectId := by
  revert h
  unfold pass2Asg
  split
  · intro h; simp at h; exact h.1
  · split
    · intro h; simp at h; exact h.1
    · intro h; simp at h

theorem pass2Collect_ids_mono (env : Env) (sel : Option String)
    (settings : ProjectSettings) (unmatched : List PhpupListedInstance) :
    ∀ (ps : List Project) (ids : List String) (a : String), a ∈ ids →
    a ∈ (pass2Collect env sel settings unmatched ps ids).1 := by
  intro ps
  induction ps with
  | nil => intro ids a h; exact h
  | cons p rest ih =>
    intro ids a h
    simp only [pass2Collect]
    split
    · exact ih ids a h
    · split
      · exact ih ids a h
      · split
        · exact ih (ids ++ [p.id]) a (List.mem_append_left _ h)
        · exact ih ids a h

theorem pass2Collect_asg_keys (env : Env) (sel : Option String)
    (settings : ProjectSettings) (unmatched : List PhpupListedInstance) :
    ∀ (ps : List Project) (ids : List String) (k v : String),
    (k, v) ∈ (pass2Collect env sel settings unmatched ps ids).2 →
    k ∉ ids ∧ k ∈ (pass2Collect env sel settings unmatched ps ids).1 := by
  intro ps
  induction ps with
  | nil => intro ids k v h; simp [pass2Collect] at h
  | cons p rest ih =>
    intro ids k v h
    revert h
    simp only [pass2Collect]
    split
    · exact fun h => ih ids k v h
    · split
      · exact fun h => ih ids k v h
      · split
        · intro h
          rcases List.mem_append.mp h with hhead | htail
          · have hk : k = p.id := pass2Asg_key unmatched p.id p.port k v hhead
            subst hk
            refine ⟨?_, ?_⟩
            · intro hmem
              rename_i hcond _ _
              exact absurd (contains_of_mem hmem) (by simpa using hcond)
            · exact pass2Collect_ids_mono env sel settings unmatched rest
                (ids ++ [p.id]) p.id
                (List.mem_append_right _ (List.mem_singleton.mpr rfl))
          · have := ih (ids ++ [p.id]) k v htail
            exact ⟨fun hmem => this.1 (List.mem_append_left _ hmem), this.2⟩
        · exact fun h => ih ids k v h

theorem matchedIdsOf_sublist : ∀ (ps : List Project)
    (ds : List (Option (Nat × PhpupListedInstance))),
    List.Sublist (matchedIdsOf ps ds) (ps.map Project.id) := by
  intro ps
  induction ps with
  | nil => intro ds; cases ds <;> exact List.Sublist.refl _
  | cons p rest ih =>
    intro ds
    cases ds with
    | nil => exact List.nil_sublist _
    | cons d drest =>
      cases d with
      | none =>
        exact List.Sublist.cons p.id (ih drest)
      | some di =>
        exact List.Sublist.cons₂ p.id (ih drest)

theorem assignsOf_keys_sublist : ∀ (ps : List Project)
    (ds : List (Option (Nat × PhpupListedInstance))),
    List.Sublist ((assignsOf ps ds).map Prod.fst) (ps.map Project.id) := by
  intro ps
  induction ps with
  | nil => intro ds; cases ds <;> exact List.nil_sublist _
  | cons p rest ih =>
    intro ds
    cases ds with
    | nil => exact List.nil_sublist _
    | cons d drest =>
      cases d with
      | none => exact List.Sublist.cons p.id (ih drest)
      | some di => exact List.Sublist.cons₂ p.id (ih drest)

theorem assignsOf_key_mem : ∀ (ps : List Project)
    (ds : List (Option (Nat × PhpupListedInstance))) (k v : String),
    (k, v) ∈ assignsOf ps ds → k ∈ matchedIdsOf ps ds := by
  intro ps
  induction ps with
  | nil => intro ds k v h; cases ds <;> simp [assignsOf] at h
  | cons p rest ih =>
    intro ds k v h
    cases ds with
    | nil => simp [assignsOf] at h
    | cons d drest =>
      cases d with
      | none => exact ih drest k v h
      | some di =>
        rcases List.mem_cons.mp h with heq | htail
        · have : k = p.id := by
            have := congrArg Prod.fst heq
            simpa using this
          exact this ▸ List.mem_cons_self _ _
        · exact List.mem_cons_of_mem _ (ih drest k v htail)

theorem pass2Asg_eq (unmatched : List PhpupListedInstance)
    (projectId port : String) :
    pass2Asg unmatched projectId port = [] ∨
      ∃ x, pass2Asg unmatched projectId port = [(projectId, x)] := by
  unfold pass2Asg
  split
  · right; exact ⟨_, rfl⟩
  · split
    · right; exact ⟨_, rfl⟩
    · left; rfl

theorem pass2Collect_keys_nodup (env : Env) (sel : Option String)
    (settings : ProjectSettings) (unmatched : List PhpupListedInstance) :
    ∀ (ps : List Project) (ids : List String),
    (((pass2Collect env sel settings unmatched ps ids).2).map Prod.fst).Nodup := by
  intro ps
  induction ps with
  | nil => intro ids; simp [pass2Collect]
  | cons p rest ih =>
    intro ids
    simp only [pass2Collect]
    split
    · exact ih ids
    · split
      · exact ih ids
      · split
        · rcases pass2Asg_eq unmatched p.id p.port with hnil | ⟨x, hone⟩
          · simpa [hnil] using ih (ids ++ [p.id])
          · simp only [hone, List.map_append, List.singleton_append, List.map_cons,
              List.map_nil, List.nodup_cons]
            refine ⟨?_, ih (ids ++ [p.id])⟩
            intro hmem
            rcases List.mem_map.mp hmem with ⟨kv, hkv, hfst⟩
            obtain ⟨k0, v0⟩ := kv
            have hk : k0 = p.id := hfst
            subst hk
            exact (pass2Collect_asg_keys env sel settings unmatched rest
              (ids ++ [p.id]) p.id v0 hkv).1
              (List.mem_append_right _ (List.mem_singleton.mpr rfl))
        · exact ih ids

/-! ### Reconciliation idempotence -/

theorem reconcileCore_idem (env : Env) (instances : List PhpupListedInstance)
    (st : StoreState) (hnd : (st.projects.map Project.id).Nodup) :
    reconcileCore env instances (reconcileCore env instances st) =
      reconcileCore env instances st := by
  simp only [reconcileCore, reconcileAux]
  set ds := pass1Decisions instances st.projects [] with hds
  set ps1 := applyDecisions st.projects ds with hps1
  set hs := handleIds st.handles with hhs
  set ids1 := matchedIdsOf st.projects ds with hids1
  set asg1 := assignsOf st.projects ds with hasg1
  set unm := unmatchedOf instances 0 (matchedIdxsOf ds) with hunm
  set pr := (if unm.length > 0 then
      pass2Collect env st.selectedProjectId st.settings unm ps1 ids1
    else (ids1, [])) with hpr
  set P1 := finalizeProjects hs pr.1 ps1 with hP1
  set AA := applyAssigns st.runningPids (asg1 ++ pr.2) with hAA
  set M1 := deleteUnmatched pr.1 ps1 AA with hM1
  -- run-2 first-pass decisions coincide with run 1
  have hpath1 : P1.map Project.path = st.projects.map Project.path := by
    rw [hP1, finalizeProjects_map_path, hps1, applyDecisions_map_path]
  have hid1 : P1.map Project.id = st.projects.map Project.id := by
    rw [hP1, finalizeProjects_map_id, hps1, applyDecisions_map_id]
  have hds2 : pass1Decisions instances P1 [] = ds := by
    rw [pass1Decisions_congr instances P1 st.projects [] hpath1, hds]
  rw [hds2]
  -- run-2 application of the decisions is a no-op
  have happ : applyDecisions P1 ds = P1 := by
    rw [hP1, hpr]
    show applyDecisions ((applyDecisions st.projects ds).map
      (finalizeOne hs (if unm.length > 0 then
        pass2Collect env st.selectedProjectId st.settings unm ps1 ids1
      else (ids1, [])).1)) ds = _
    rw [applyDecisions_fix (finalizeOne hs _) (finalizeOne_port hs _) st.projects ds]
    rfl
  rw [happ]
  have hmids : matchedIdsOf P1 ds = ids1 := by
    rw [matchedIdsOf_congr P1 st.projects ds hid1, hids1]
  rw [hmids]
  have hasgs : assignsOf P1 ds = asg1 := by
    rw [assignsOf_congr P1 st.projects ds hid1, hasg1]
  rw [hasgs]
  -- run-2 second pass coincides with run 1
  have hprojmaps : P1.map Project.id = ps1.map Project.id ∧
      P1.map Project.path = ps1.map Project.path ∧
      P1.map Project.port = ps1.map Project.port := by
    refine ⟨?_, ?_, ?_⟩ <;> rw [hP1]
    · exact finalizeProjects_map_id hs pr.1 ps1
    · exact finalizeProjects_map_path hs pr.1 ps1
    · exact finalizeProjects_map_port hs pr.1 ps1
  have hpr2 : (if unm.length > 0 then
      pass2Collect env st.selectedProjectId st.settings unm P1 ids1
    else (ids1, [])) = pr := by
    by_cases hlen : unm.length > 0
    · rw [if_pos hlen, pass2Collect_congr env st.selectedProjectId st.settings unm
        P1 ps1 ids1 hprojmaps.1 hprojmaps.2.1 hprojmaps.2.2, hpr, if_pos hlen]
    · rw [if_neg hlen, hpr, if_neg hlen]
  rw [hpr2]
  -- run-2 finalization is a no-op
  have hfin : finalizeProjects hs pr.1 P1 = P1 := by
    rw [hP1]
    show (ps1.map (finalizeOne hs pr.1)).map (finalizeOne hs pr.1) =
      ps1.map (finalizeOne hs pr.1)
    rw [List.map_map]
    exact List.map_congr_left fun p _ => finalizeOne_idem hs pr.1 p
  rw [hfin]
  -- keys recorded by the two passes are distinct and all matched
  have hasg1keys : ∀ k v : String, (k, v) ∈ asg1 → k ∈ ids1 := by
    intro k v hkv
    rw [hids1]
    exact assignsOf_key_mem st.projects ds k v (hasg1 ▸ hkv)
  have hasg2facts : ∀ k v : String, (k, v) ∈ pr.2 → k ∉ ids1 ∧ k ∈ pr.1 := by
    intro k v hkv
    by_cases hlen : unm.length > 0
    · have hpr' : pr = pass2Collect env st.selectedProjectId st.settings unm ps1 ids1 := by
        rw [hpr, if_pos hlen]
      rw [hpr'] at hkv ⊢
      exact pass2Collect_asg_keys env st.selectedProjectId st.settings unm ps1
        ids1 k v hkv
    · have hpr' : pr = (ids1, []) := by rw [hpr, if_neg hlen]
      rw [hpr'] at hkv
      simp at hkv
  have hids1sub : ∀ k : String, k ∈ ids1 → k ∈ pr.1 := by
    intro k hk
    by_cases hlen : unm.length > 0
    · have hpr' : pr = pass2Collect env st.selectedProjectId st.settings unm ps1 ids1 := by
        rw [hpr, if_pos hlen]
      rw [hpr']
      exact pass2Collect_ids_mono env st.selectedProjectId st.settings unm ps1 ids1 k hk
    · have hpr' : pr = (ids1, []) := by rw [hpr, if_neg hlen]
      rw [hpr']
      exact hk
  have hkeysnodup : ((asg1 ++ pr.2).map Prod.fst).Nodup := by
    rw [List.map_append, List.nodup_append]
    refine ⟨?_, ?_, ?_⟩
    · rw [hasg1]
      exact (assignsOf_keys_sublist st.projects ds).nodup hnd
    · by_cases hlen : unm.length > 0
      · have hpr' : pr = pass2Collect env st.selectedProjectId st.settings unm ps1 ids1 := by
          rw [hpr, if_pos hlen]
        rw [hpr']
        exact pass2Collect_keys_nodup env st.selectedProjectId st.settings unm ps1 ids1
      · have hpr' : pr = (ids1, []) := by rw [hpr, if_neg hlen]
        rw [hpr']
        exact List.nodup_nil
    · intro k hk1 hk2
      rcases List.mem_map.mp hk1 with ⟨⟨k1, v1⟩, hkv1, hfst1⟩
      rcases List.mem_map.mp hk2 with ⟨⟨k2, v2⟩, hkv2, hfst2⟩
      have h1 : k ∈ ids1 := hfst1 ▸ hasg1keys k1 v1 hkv1
      have h2 : k ∉ ids1 := hfst2 ▸ (hasg2facts k2 v2 hkv2).1
      exact h2 h1
  have hallkeys : ∀ kv : String × String, kv ∈ asg1 ++ pr.2 → kv.1 ∈ pr.1 := by
    intro kv hkv
    rcases List.mem_append.mp hkv with h1 | h2
    · exact hids1sub kv.1 (hasg1keys kv.1 kv.2 (by exact h1))
    · exact (hasg2facts kv.1 kv.2 (by exact h2)).2
  -- the run-2 pid writes are all no-ops
  have hAAfix : applyAssigns M1 (asg1 ++ pr.2) = M1 := by
    refine applyAssigns_id M1 (asg1 ++ pr.2) ?_
    intro kv hkv
    have hmemids : kv.1 ∈ pr.1 := hallkeys kv hkv
    rw [hM1, deleteUnmatched_get_mem pr.1 ps1 AA kv.1 hmemids, hAA]
    exact applyAssigns_get_key st.runningPids (asg1 ++ pr.2) kv.1 kv.2
      hkeysnodup hkv
  rw [hAAfix]
  have hdelfix : deleteUnmatched pr.1 P1 M1 = M1 := by
    refine deleteUnmatched_id pr.1 P1 M1 ?_
    intro p hp hcont
    rcases List.mem_map.mp (hP1 ▸ hp) with ⟨p0, hp0, hp0eq⟩
    have hideq : p.id = p0.id := by rw [← hp0eq, finalizeOne_id]
    rw [hideq, hM1]
    exact deleteUnmatched_get_deleted pr.1 ps1 AA p0 hp0 (hideq ▸ hcont)
  rw [hdelfix]

/-! ### Reconciliation status characterization -/

theorem pass1Decisions_length (instances : List PhpupListedInstance) :
    ∀ (ps : List Project) (idxs : List Nat),
    (pass1Decisions instances ps idxs).length = ps.length := by
  intro ps
  induction ps with
  | nil => intro idxs; rfl
  | cons p rest ih =>
    intro idxs
    show (match findMatch p.path instances 0 idxs with
      | none => none :: pass1Decisions instances rest idxs
      | some (i, inst) =>
        some (i, inst) :: pass1Decisions instances rest (idxs ++ [i])).length = _
    cases findMatch p.path instances 0 idxs with
    | none => simp [ih]
    | some di => simp [ih]

theorem applyDecisions_get : ∀ (ps : List Project)
    (ds : List (Option (Nat × PhpupListedInstance))) (i : Nat) (p : Project)
    (d : Option (Nat × PhpupListedInstance)),
    ps[i]? = some p → ds[i]? = some d →
    (applyDecisions ps ds)[i]? = some (applyDecision p d) := by
  intro ps
  induction ps with
  | nil => intro ds i p d hp _; simp at hp
  | cons p0 rest ih =>
    intro ds i p d hp hd
    cases ds with
    | nil => simp at hd
    | cons d0 drest =>
      cases i with
      | zero =>
        simp only [List.getElem?_cons_zero, Option.some.injEq] at hp hd
        subst hp; subst hd
        simp [applyDecisions]
      | succ j =>
        simp only [List.getElem?_cons_succ] at hp hd
        show (applyDecision p0 d0 :: applyDecisions rest drest)[j + 1]? = _
        simpa using ih drest j p d hp hd

theorem reconcile_status_char (env : Env) (instances : List PhpupListedInstance)
    (st : StoreState) (i : Nat) (p : Project)
    (hp : st.projects[i]? = some p) :
    ∃ p', (reconcileAux env instances st).2.1[i]? = some p' ∧ p'.id = p.id ∧
      p'.isRunning = (reconcileAux env instances st).1.contains p.id ∧
      p'.status =
        (if (handleIds st.handles).contains p.id then p.status
         else if (reconcileAux env instances st).1.contains p.id then
           ProjectStatus.running
         else if p.status = .crashed then .crashed
         else .stopped) := by
  have hlt : i < st.projects.length := by
    rcases List.getElem?_eq_some.mp hp with ⟨h, _⟩
    exact h
  have hlt2 : i < (pass1Decisions instances st.projects []).length := by
    rw [pass1Decisions_length]
    exact hlt
  have hd : (pass1Decisions instances st.projects [])[i]? =
      some (pass1Decisions instances st.projects [])[i] :=
    List.getElem?_eq_getElem hlt2
  have happly := applyDecisions_get st.projects (pass1Decisions instances st.projects [])
    i p _ hp hd
  refine ⟨finalizeOne (handleIds st.handles) (reconcileAux env instances st).1
    (applyDecision p (pass1Decisions instances st.projects [])[i]), ?_, ?_, ?_, ?_⟩
  · show (finalizeProjects (handleIds st.handles) (reconcileAux env instances st).1
      (applyDecisions st.projects (pass1Decisions instances st.projects [])))[i]? = _
    unfold finalizeProjects
    rw [List.getElem?_map, happly]
    rfl
  · rw [finalizeOne_id, applyDecision_id]
  · rw [finalizeOne_isRunning, applyDecision_id]
  · rw [finalizeOne_status, applyDecision_id, applyDecision_status]

/-! ### First-pass matching: soundness, completeness, tie-break -/

theorem findMatch_sound (path : String) : ∀ (l : List PhpupListedInstance)
    (base : Nat) (idxs : List Nat) (k : Nat) (inst : PhpupListedInstance),
    findMatch path l base idxs = some (k, inst) →
    k ∉ idxs ∧ (∃ off, k = base + off ∧ l[off]? = some inst) ∧
    ∃ f, inst.pathFragment = some f ∧ f ≠ "" ∧
      projectPathMatchesFragment path f = true := by
  intro l
  induction l with
  | nil => intro base idxs k inst h; simp [findMatch] at h
  | cons inst0 rest ih =>
    intro base idxs k inst h
    by_cases hc : idxs.contains base
    · rw [show findMatch path (inst0 :: rest) base idxs =
        findMatch path rest (base + 1) idxs from by
          simp only [findMatch, hc]; rfl] at h
      obtain ⟨h1, ⟨off, hoff, hget⟩, h3⟩ := ih (base + 1) idxs k inst h
      exact ⟨h1, ⟨off + 1, by omega, by simpa using hget⟩, h3⟩
    · rcases hfrag : inst0.pathFragment with _ | f
      · rw [show findMatch path (inst0 :: rest) base idxs =
          findMatch path rest (base + 1) idxs from by
            simp only [findMatch, hc, hfrag]; rfl] at h
        obtain ⟨h1, ⟨off, hoff, hget⟩, h3⟩ := ih (base + 1) idxs k inst h
        exact ⟨h1, ⟨off + 1, by omega, by simpa using hget⟩, h3⟩
      · by_cases hemp : f = ""
        · rw [show findMatch path (inst0 :: rest) base idxs =
            findMatch path rest (base + 1) idxs from by
              simp only [findMatch, hc, hfrag, hemp]; rfl] at h
          obtain ⟨h1, ⟨off, hoff, hget⟩, h3⟩ := ih (base + 1) idxs k inst h
          exact ⟨h1, ⟨off + 1, by omega, by simpa using hget⟩, h3⟩
        · by_cases hm : projectPathMatchesFragment path f
          · rw [show findMatch path (inst0 :: rest) base idxs = some (base, inst0)
              from by simp only [findMatch, hc, hfrag, hemp, hm]; rfl] at h
            have hk : k = base := by
              have := congrArg Prod.fst (Option.some.inj h)
              simpa using this.symm
            have hi : inst = inst0 := by
              have := congrArg Prod.snd (Option.some.inj h)
              simpa using this.symm
            subst hk; subst hi
            refine ⟨by simpa using hc, ⟨0, by omega, by simp⟩, f, hfrag, hemp, hm⟩
          · rw [show findMatch path (inst0 :: rest) base idxs =
              findMatch path rest (base + 1) idxs from by
                simp only [findMatch, hc, hfrag, hemp, hm]; rfl] at h
            obtain ⟨h1, ⟨off, hoff, hget⟩, h3⟩ := ih (base + 1) idxs k inst h
            exact ⟨h1, ⟨off + 1, by omega, by simpa using hget⟩, h3⟩

theorem findMatch_none (path : String) : ∀ (l : List PhpupListedInstance)
    (base : Nat) (idxs : List Nat),
    findMatch path l base idxs = none →
    ∀ (off : Nat) (inst : PhpupListedInstance), l[off]? = some inst →
    (base + off) ∉ idxs →
    ∀ f, inst.pathFragment = some f → f ≠ "" →
    projectPathMatchesFragment path f = false := by
  intro l
  induction l with
  | nil => intro base idxs _ off inst hget; simp at hget
  | cons inst0 rest ih =>
    intro base idxs h off inst hget hnot f hf hemp
    by_cases hc : idxs.contains base
    · rw [show findMatch path (inst0 :: rest) base idxs =
        findMatch path rest (base + 1) idxs from by
          simp only [findMatch, hc]; rfl] at h
      cases off with
      | zero =>
        exact absurd (by simpa using hc) (by simpa using hnot)
      | succ j =>
        exact ih (base + 1) idxs h j inst (by simpa using hget)
          ((show base + 1 + j = base + (j + 1) from by omega) ▸ hnot) f hf hemp
    · cases off with
      | zero =>
        have hinst : inst0 = inst := by simpa using hget
        subst hinst
        rcases hfrag : inst0.pathFragment with _ | f0
        · rw [hfrag] at hf; exact absurd hf (by simp)
        · rw [hfrag] at hf
          have hff : f0 = f := by simpa using hf
          subst hff
          by_cases hm : projectPathMatchesFragment path f0
          · rw [show findMatch path (inst0 :: rest) base idxs = some (base, inst0)
              from by simp only [findMatch, hc, hfrag, hemp, hm]; rfl] at h
            exact absurd h (by simp)
          · simpa using hm
      | succ j =>
        have hrec : findMatch path rest (base + 1) idxs = none := by
          revert h
          simp only [findMatch, hc]
          rcases hfrag : inst0.pathFragment with _ | f0
          · exact fun h => h
          · by_cases hemp0 : f0 = ""
            · simp [hemp0]
            · by_cases hm0 : projectPathMatchesFragment path f0
              · simp [hemp0, hm0]
              · simp [hemp0, hm0]
        exact ih (base + 1) idxs hrec j inst (by simpa using hget)
          ((show base + 1 + j = base + (j + 1) from by omega) ▸ hnot) f hf hemp

theorem pass1Decisions_sound (instances : List PhpupListedInstance) :
    ∀ (ps : List Project) (idxs : List Nat) (pos k : Nat)
    (inst : PhpupListedInstance),
    (pass1Decisions instances ps idxs)[pos]? = some (some (k, inst)) →
    k ∉ idxs ∧ instances[k]? = some inst ∧
    ∃ f, inst.pathFragment = some f ∧ f ≠ "" ∧
      ∃ p, ps[pos]? = some p ∧ projectPathMatchesFragment p.path f = true := by
  intro ps
  induction ps with
  | nil => intro idxs pos k inst h; simp [pass1Decisions] at h
  | cons p rest ih =>
    intro idxs pos k inst h
    rcases hfm : findMatch p.path instances 0 idxs with _ | di
    · rw [show pass1Decisions instances (p :: rest) idxs =
        none :: pass1Decisions instances rest idxs from by
          simp only [pass1Decisions, hfm]] at h
      cases pos with
      | zero => simp at h
      | succ j =>
        obtain ⟨h1, h2, f, hf, hemp, q, hq, hmt⟩ := ih idxs j k inst (by simpa using h)
        exact ⟨h1, h2, f, hf, hemp, q, by simpa using hq, hmt⟩
    · obtain ⟨i0, inst0⟩ := di
      rw [show pass1Decisions instances (p :: rest) idxs =
        some (i0, inst0) :: pass1Decisions instances rest (idxs ++ [i0]) from by
          simp only [pass1Decisions, hfm]] at h
      cases pos with
      | zero =>
        have hk : i0 = k ∧ inst0 = inst := by simpa using h
        obtain ⟨hk1, hk2⟩ := hk
        subst hk1; subst hk2
        obtain ⟨h1, ⟨off, hoff, hget⟩, f, hf, hemp, hmt⟩ :=
          findMatch_sound p.path instances 0 idxs i0 inst0 hfm
        refine ⟨h1, ?_, f, hf, hemp, p, by simp, hmt⟩
        rw [hoff]
        simpa using hget
      | succ j =>
        obtain ⟨h1, h2, f, hf, hemp, q, hq, hmt⟩ :=
          ih (idxs ++ [i0]) j k inst (by simpa using h)
        exact ⟨fun hmem => h1 (List.mem_append_left _ hmem), h2, f, hf, hemp,
          q, by simpa using hq, hmt⟩

theorem pass1Decisions_pairwise (instances : List PhpupListedInstance) :
    ∀ (ps : List Project) (idxs : List Nat),
    List.Pairwise (fun d1 d2 =>
      ∀ (k1 : Nat) (i1 : PhpupListedInstance) (k2 : Nat) (i2 : PhpupListedInstance),
        d1 = some (k1, i1) → d2 = some (k2, i2) → k1 ≠ k2)
      (pass1Decisions instances ps idxs) := by
  intro ps
  induction ps with
  | nil => intro idxs; simp [pass1Decisions]
  | cons p rest ih =>
    intro idxs
    rcases hfm : findMatch p.path instances 0 idxs with _ | di
    · rw [show pass1Decisions instances (p :: rest) idxs =
        none :: pass1Decisions instances rest idxs from by
          simp only [pass1Decisions, hfm]]
      refine List.Pairwise.cons ?_ (ih idxs)
      intro d hd k1 i1 k2 i2 h1 _
      simp at h1
    · obtain ⟨i0, inst0⟩ := di
      rw [show pass1Decisions instances (p :: rest) idxs =
        some (i0, inst0) :: pass1Decisions instances rest (idxs ++ [i0]) from by
          simp only [pass1Decisions, hfm]]
      refine List.Pairwise.cons ?_ (ih (idxs ++ [i0]))
      intro d hd k1 i1 k2 i2 h1 h2
      have hk1 : k1 = i0 := by
        have := Option.some.inj h1.symm
        simpa using congrArg Prod.fst this
      rcases List.getElem?_of_mem (h2 ▸ hd) with ⟨pos, hpos⟩
      have hsound := pass1Decisions_sound instances rest (idxs ++ [i0]) pos k2 i2 hpos
      intro hc
      refine hsound.1 ?_
      rw [← hc, hk1]
      exact List.mem_append_right _ (List.mem_singleton.mpr rfl)

theorem pass1Decisions_earliest (instances : List PhpupListedInstance) :
    ∀ (ps : List Project) (idxs : List Nat) (posN posM : Nat) (pN : Project)
    (kM : Nat) (instM : PhpupListedInstance),
    posN < posM →
    (pass1Decisions instances ps idxs)[posN]? = some none →
    (pass1Decisions instances ps idxs)[posM]? = some (some (kM, instM)) →
    ps[posN]? = some pN →
    ∀ f, instM.pathFragment = some f → f ≠ "" →
    projectPathMatchesFragment pN.path f = false := by
  intro ps
  induction ps with
  | nil => intro idxs posN posM pN kM instM _ hn; simp [pass1Decisions] at hn
  | cons p rest ih =>
    intro idxs posN posM pN kM instM hlt hn hm hpN f hf hemp
    rcases hfm : findMatch p.path instances 0 idxs with _ | di
    · rw [show pass1Decisions instances (p :: rest) idxs =
        none :: pass1Decisions instances rest idxs from by
          simp only [pass1Decisions, hfm]] at hn hm
      cases posN with
      | zero =>
        have hpNp : p = pN := by simpa using hpN
        subst hpNp
        cases posM with
        | zero => simp at hlt
        | succ m =>
          have hsound := pass1Decisions_sound instances rest idxs m kM instM
            (by simpa using hm)
          obtain ⟨hnotin, hget, f0, hf0, hemp0, _⟩ := hsound
          have hff : f0 = f := by
            rw [hf0] at hf
            simpa using hf
          subst hff
          exact findMatch_none p.path instances 0 idxs hfm kM instM
            (by simpa using hget) (by simpa using hnotin) f0 hf0 hemp0
      | succ n =>
        cases posM with
        | zero => simp at hlt
        | succ m =>
          exact ih idxs n m pN kM instM (by omega) (by simpa using hn)
            (by simpa using hm) (by simpa using hpN) f hf hemp
    · obtain ⟨i0, inst0⟩ := di
      rw [show pass1Decisions instances (p :: rest) idxs =
        some (i0, inst0) :: pass1Decisions instances rest (idxs ++ [i0]) from by
          simp only [pass1Decisions, hfm]] at hn hm
      cases posN with
      | zero => simp at hn
      | succ n =>
        cases posM with
        | zero => simp at hlt
        | succ m =>
          exact ih (idxs ++ [i0]) n m pN kM instM (by omega) (by simpa using hn)
            (by simpa using hm) (by simpa using hpN) f hf hemp

/-! ### Decimal rendering and parsing roundtrip -/

theorem digitVal_digitChar (n : Nat) (h : n < 10) : digitVal (digitChar n) = n := by
  interval_cases n <;> decide

theorem digitChar_isDigit (n : Nat) (h : n < 10) : (digitChar n).isDigit = true := by
  interval_cases n <;> decide

theorem digitsVal_append (xs : List Char) (c : Char) :
    digitsVal (xs ++ [c]) = 10 * digitsVal xs + digitVal c := by
  unfold digitsVal
  rw [List.foldl_append]
  show digitsVal xs * 10 + digitVal c = 10 * digitsVal xs + digitVal c
  ring

theorem natToStrAux_spec : ∀ (fuel n : Nat), n < fuel →
    natToStrAux fuel n ≠ [] ∧ (∀ c ∈ natToStrAux fuel n, c.isDigit = true) ∧
    digitsVal (natToStrAux fuel n) = n := by
  intro fuel
  induction fuel with
  | zero => intro n h; omega
  | succ f ih =>
    intro n h
    by_cases hn : n < 10
    · refine ⟨by simp [natToStrAux, hn], ?_, ?_⟩
      · intro c hc
        rw [show natToStrAux (f + 1) n = [digitChar n] from by simp [natToStrAux, hn]]
          at hc
        rw [List.mem_singleton.mp hc]
        exact digitChar_isDigit n hn
      · rw [show natToStrAux (f + 1) n = [digitChar n] from by simp [natToStrAux, hn]]
        show digitsVal [digitChar n] = n
        unfold digitsVal
        simp [digitVal_digitChar n hn]
    · have hdiv : n / 10 < f := by omega
      obtain ⟨ih1, ih2, ih3⟩ := ih (n / 10) hdiv
      rw [show natToStrAux (f + 1) n =
        natToStrAux f (n / 10) ++ [digitChar (n % 10)] from by
          simp [natToStrAux, hn]]
      refine ⟨by simp, ?_, ?_⟩
      · intro c hc
        rcases List.mem_append.mp hc with h1 | h2
        · exact ih2 c h1
        · rw [List.mem_singleton.mp h2]
          exact digitChar_isDigit _ (Nat.mod_lt n (by omega))
      · rw [digitsVal_append, ih3, digitVal_digitChar _ (Nat.mod_lt n (by omega))]
        omega

theorem digit_not_space (c : Char) (h : c.isDigit = true) : isJsSpace c = false := by
  simp only [Char.isDigit, Bool.and_eq_true, decide_eq_true_eq] at h
  unfold isJsSpace
  simp only [Bool.or_eq_false_iff, decide_eq_false_iff_not]
  refine ⟨⟨⟨⟨⟨⟨⟨?_, ?_⟩, ?_⟩, ?_⟩, ?_⟩, ?_⟩, ?_⟩, ?_⟩ <;>
    · intro hc
      subst hc
      exact absurd h (by decide)

theorem digit_not_sign (c : Char) (h : c.isDigit = true) : c ≠ '-' ∧ c ≠ '+' := by
  simp only [Char.isDigit, Bool.and_eq_true, decide_eq_true_eq] at h
  constructor <;>
    · intro hc
      subst hc
      exact absurd h (by decide)

theorem parseDigits_all (ds : List Char) (h1 : ds ≠ [])
    (h2 : ∀ c ∈ ds, c.isDigit = true) : parseDigits ds = some (digitsVal ds) := by
  unfold parseDigits
  rw [show ds.takeWhile Char.isDigit = ds from List.takeWhile_eq_self_iff.mpr h2]
  simp [h1]

theorem jsParseInt_natToStr (n : Nat) : jsParseInt (natToStr n) = some (n : Int) := by
  obtain ⟨hne, hdig, hval⟩ := natToStrAux_spec (n + 1) n (by omega)
  unfold jsParseInt natToStr
  rcases hl : natToStrAux (n + 1) n with _ | ⟨c, rest⟩
  · exact absurd hl hne
  · have hc : c.isDigit = true := hdig c (hl ▸ List.mem_cons_self _ _)
    have hdrop : (String.mk (c :: rest)).data.dropWhile isJsSpace = c :: rest := by
      show List.dropWhile isJsSpace (c :: rest) = c :: rest
      rw [List.dropWhile_cons, digit_not_space c hc]
      simp
    rw [hdrop]
    obtain ⟨hm, hp⟩ := digit_not_sign c hc
    have hparse : parseDigits (c :: rest) = some (digitsVal (c :: rest)) := by
      refine parseDigits_all _ (by simp) ?_
      intro x hx
      exact hdig x (hl ▸ hx)
    show (if c = '-' then (parseDigits rest).map (fun n => -(n : Int))
      else if c = '+' then (parseDigits rest).map (fun n => (n : Int))
      else (parseDigits (c :: rest)).map (fun n => (n : Int))) = some (n : Int)
    rw [if_neg hm, if_neg hp, hparse]
    rw [show digitsVal (c :: rest) = n from hl ▸ hval]
    rfl

/-! ### Port allocator scan characterization -/

theorem jsNumToString_natCast (n : Nat) :
    jsNumToString (some (n : Int)) = natToStr n := by
  show (if ((n : Int)) < 0 then "-" ++ natToStr ((n : Int)).natAbs
    else natToStr ((n : Int)).natAbs) = natToStr n
  rw [if_neg (by omega)]
  simp

theorem findAvailablePortLoop_spec (env : Env) (inUse : Nat → Bool)
    (hprobe : ∀ p : Nat, isPortInUse env (natToStr p) = .ok (inUse p)) :
    ∀ (fuel m : Nat),
    findAvailablePortLoop env (some (m : Int)) fuel =
      .ok (match ((((List.range fuel).map fun i => m + 1 + i).filter
            fun p => p ≤ 65535).find? fun p => !inUse p) with
           | some p => natToStr p
           | none => "") := by
  intro fuel
  induction fuel with
  | zero => intro m; rfl
  | succ f ih =>
    intro m
    have hport : (some ((m : Int))).map (· + 1) = some ((m + 1 : Nat) : Int) := by
      simp
    have hcands : ((List.range (f + 1)).map fun i => m + 1 + i) =
        (m + 1) :: ((List.range f).map fun i => (m + 1) + 1 + i) := by
      rw [List.range_succ_eq_map, List.map_cons, List.map_map]
      refine congrArg (List.cons _) (List.map_congr_left ?_)
      intro i _
      show m + 1 + (i + 1) = m + 1 + 1 + i
      omega
    show (if (match (some ((m : Int))).map (· + 1) with
        | some p => decide (p > 65535) | none => false) then Except.ok ""
      else do
        let inU ← isPortInUse env (jsNumToString ((some ((m : Int))).map (· + 1)))
        if !inU then
          Except.ok (jsNumToString ((some ((m : Int))).map (· + 1)))
        else findAvailablePortLoop env ((some ((m : Int))).map (· + 1)) f) = _
    rw [hport]
    have hcond : (match some (((m + 1 : Nat)) : Int) with
        | some p => decide (p > 65535) | none => false) =
        decide ((m + 1 : Nat) > 65535) := by
      show decide ((((m + 1 : Nat)) : Int) > 65535) = decide ((m + 1 : Nat) > 65535)
      simp only [decide_eq_decide]
      omega
    rw [hcond]
    by_cases hbig : (m + 1 : Nat) > 65535
    · rw [if_pos (decide_eq_true hbig)]
      have hfilter : (((List.range (f + 1)).map fun i => m + 1 + i).filter
          fun p => p ≤ 65535) = [] := by
        rw [List.filter_eq_nil_iff]
        intro a ha
        rcases List.mem_map.mp ha with ⟨i, _, hi⟩
        simp only [decide_eq_true_eq]
        omega
      rw [hfilter]
      rfl
    · rw [if_neg (by simpa using hbig)]
      rw [jsNumToString_natCast, hcands, hprobe (m + 1)]
      have hkeep : ((m + 1) :: ((List.range f).map fun i => (m + 1) + 1 + i)).filter
          (fun p => p ≤ 65535) =
          (m + 1) :: (((List.range f).map fun i => (m + 1) + 1 + i).filter
            fun p => p ≤ 65535) := by
        rw [List.filter_cons_of_pos (by simpa using (by omega : m + 1 ≤ 65535))]
      rw [hkeep, List.find?_cons]
      show (if !inUse (m + 1) then Except.ok (natToStr (m + 1))
        else findAvailablePortLoop env (some ((m + 1 : Nat) : Int)) f) = _
      by_cases hu : inUse (m + 1)
      · rw [show (!inUse (m + 1)) = false from by simp [hu]]
        show findAvailablePortLoop env (some ((m + 1 : Nat) : Int)) f = _
        rw [ih (m + 1)]
      · rw [show (!inUse (m + 1)) = true from by simp [hu]]
        rfl

theorem isValidPort_charac (s : String) (h : isValidPort s = true) :
    ∃ n : Nat, 0 < n ∧ n ≤ 65535 ∧ jsParseInt s = some (n : Int) ∧
      s = natToStr n := by
  unfold isValidPort at h
  rcases hz : jsParseInt s with _ | z
  · rw [hz] at h; simp at h
  · rw [hz] at h
    simp only [Bool.and_eq_true, decide_eq_true_eq] at h
    obtain ⟨⟨h1, h2⟩, h3⟩ := h
    refine ⟨z.toNat, by omega, by omega, ?_, ?_⟩
    · congr 1
      omega
    · have hs : s = jsNumToString (some z) := by simpa using h3
      rw [hs]
      show (if z < 0 then "-" ++ natToStr z.natAbs else natToStr z.natAbs) =
        natToStr z.toNat
      rw [if_neg (by omega)]
      congr 1
      omega

theorem findAvailablePort_spec (env : Env) (f : String → Int)
    (hf : ∀ s, env.portProbeExec s = .ok (f s)) (n : Nat) :
    findAvailablePort env (natToStr n) =
      .ok (match firstFreePort (fun p => f (natToStr p) == 0) n with
           | some p => natToStr p
           | none => "") := by
  unfold findAvailablePort firstFreePort
  rw [jsParseInt_natToStr]
  exact findAvailablePortLoop_spec env (fun p => f (natToStr p) == 0)
    (fun p => by
      unfold isPortInUse
      rw [hf]
      rfl) 100 n

theorem firstFreePort_gt (inUse : Nat → Bool) (n p : Nat)
    (h : firstFreePort inUse n = some p) : n < p ∧ p ≤ 65535 := by
  unfold firstFreePort at h
  have hmem := List.mem_of_find?_eq_some h
  rcases List.mem_filter.mp hmem with ⟨hmap, hle⟩
  rcases List.mem_map.mp hmap with ⟨i, _, hi⟩
  simp only [decide_eq_true_eq] at hle
  omega

/-! ### PathMatcher Bool/Prop bridges -/

theorem containsSub_iff (hay needle : List Char) :
    containsSub hay needle = true ↔ needle <:+: hay := by
  induction hay with
  | nil =>
    show (needle.isPrefixOf [] || false) = true ↔ _
    simp [List.isPrefixOf_iff_prefix]
  | cons a rest ih =>
    show (needle.isPrefixOf (a :: rest) || containsSub rest needle) = true ↔ _
    rw [Bool.or_eq_true, List.isPrefixOf_iff_prefix, ih, List.infix_cons_iff]

/-! ### Validation characterization -/

theorem validateSettings_ne_nil (s : ProjectSettings)
    (h : settingsInvalidSpec s) : validateSettings s ≠ [] := by
  intro hnil
  unfold validateSettings at hnil
  simp only [List.append_eq_nil] at hnil
  obtain ⟨⟨⟨hport, hhost⟩, hdom⟩, hthr⟩ := hnil
  unfold settingsInvalidSpec at h
  rcases h with h1 | ⟨h2a, h2b⟩ | ⟨h3a, h3b⟩ | ⟨h4a, h4b⟩
  · rcases hp : jsParseInt s.port with _ | n
    · rw [hp] at hport; simp at hport
    · rw [hp] at hport h1
      have h1' : n < 1 ∨ n > 65535 := h1
      have hport' : (if n < 1 ∨ n > 65535 then
          ["Invalid port: " ++ s.port ++ " (must be 1-65535)"] else []) = [] := hport
      rw [if_pos h1'] at hport'
      simp at hport'
  · rw [if_pos ⟨by simpa [jsTruthyS] using h2a, fun hc => h2b hc.2⟩] at hhost
    simp at hhost
  · rw [if_pos ⟨by simpa [jsTruthyS] using h3a, fun hc => h3b hc.2⟩] at hdom
    simp at hdom
  · rw [if_pos h4a] at hthr
    rcases ht : jsParseInt s.phpThreads with _ | t
    · rw [ht] at hthr; simp at hthr
    · rw [ht] at hthr h4b
      have h4b' : t < 1 ∨ t > 256 := h4b
      have hthr' : (if t < 1 ∨ t > 256 then
          ["Invalid PHP threads: " ++ s.phpThreads ++ " (must be 1-256 or \"auto\")"]
        else []) = [] := hthr
      rw [if_pos h4b'] at hthr'
      simp at hthr'

/-! ### Status effects of the engine steps -/

theorem refreshAllStatuses_status (env : Env) (st st' : StoreState)
    (h : refreshAllStatuses env st = .ok st') (i : Nat) (p p' : Project)
    (hp : st.projects[i]? = some p) (hp' : st'.projects[i]? = some p') :
    p'.status = p.status ∨ p'.status = .running ∨
      (p'.status = .stopped ∧ p.status ≠ .crashed) := by
  unfold refreshAllStatuses at h
  rcases hl : env.listCmd with _ | out
  · rw [hl] at h; exact absurd h (by simp)
  · rw [hl] at h
    have hst' : st' = reconcileCore env (parsePhpupListOutput out) st := by
      have := Except.ok.inj h
      exact this.symm
    subst hst'
    obtain ⟨q, hq, _, _, hstat⟩ :=
      reconcile_status_char env (parsePhpupListOutput out) st i p hp
    have hpq : p' = q := by
      have : (reconcileCore env (parsePhpupListOutput out) st).projects[i]? =
          (reconcileAux env (parsePhpupListOutput out) st).2.1[i]? := rfl
      rw [this, hq] at hp'
      exact (Option.some.inj hp').symm
    subst hpq
    rw [hstat]
    by_cases hh : (handleIds st.handles).contains p.id
    · rw [if_pos hh]; exact Or.inl rfl
    · rw [if_neg hh]
      by_cases hm : (reconcileAux env (parsePhpupListOutput out) st).1.contains p.id
      · rw [if_pos hm]; exact Or.inr (Or.inl rfl)
      · rw [if_neg hm]
        by_cases hc : p.status = .crashed
        · rw [if_pos hc]; exact Or.inl hc.symm
        · rw [if_neg hc]; exact Or.inr (Or.inr ⟨rfl, hc⟩)

theorem stopKillPhase_projects (env : Env) (st : StoreState) (p : Project)
    (killed : Bool) (st2 : StoreState)
    (h : stopKillPhase env st p = .ok (killed, st2)) :
    st2.projects = st.projects := by
  unfold stopKillPhase at h
  simp only [bind, Except.bind, pure, Except.pure] at h
  repeat' split at h
  all_goals
    first
    | exact Except.noConfusion h
    | (injection h with h12
       have h2 := congrArg Prod.snd h12
       subst h2
       rfl)

theorem stopWarnTail_projects (st4 : StoreState) (i : Nat) (name : String) :
    (stopWarnTail st4 i name).projects = st4.projects := by
  unfold stopWarnTail
  split
  · split <;> rfl
  · rfl

theorem stopProjectRun_status (env : Env) (st : StoreState) (k : Nat)
    (st' : StoreState) (h : stopProjectRun env st k = .ok st') :
    ∀ (i : Nat) (p p' : Project), st.projects[i]? = some p →
    st'.projects[i]? = some p' →
    p'.status = p.status ∨ p'.status = .stopped ∨ p'.status = .running := by
  intro i p p' hp hp'
  unfold stopProjectRun at h
  rcases hk : st.projects[k]? with _ | p0
  all_goals rw [hk] at h
  · have hst : st = st' := Except.ok.inj h
    subst hst
    rw [hp] at hp'
    exact Or.inl (congrArg Project.status (Option.some.inj hp').symm)
  · simp only [bind, Except.bind] at h
    split at h
    · exact Except.noConfusion h
    · rename_i r hkill
      split at h
      · exact Except.noConfusion h
      · rename_i st4 href
        have hst' : st' = stopWarnTail st4 k p0.name := (Except.ok.inj h).symm
        have hproj2 : r.2.projects = st.projects :=
          stopKillPhase_projects env st p0 r.1 r.2 (by rw [hkill])
        have hp4 : st4.projects[i]? = some p' := by
          rw [← stopWarnTail_projects st4 k p0.name, ← hst']
          exact hp'
        by_cases hik : i = k
        · subst hik
          have hlt : i < st.projects.length := by
            rcases List.getElem?_eq_some.mp hp with ⟨hl, _⟩
            exact hl
          have hin : (stopFinalize r.2 i p0 r.1).projects[i]? =
              some { p0 with isRunning := false, status := .stopped } := by
            show (r.2.projects.set i _)[i]? = _
            rw [List.getElem?_set_self (by rw [hproj2]; exact hlt)]
          have := refreshAllStatuses_status env (stopFinalize r.2 i p0 r.1) st4
            href i _ p' hin hp4
          rcases this with h1 | h2 | h3
          · exact Or.inr (Or.inl h1)
          · exact Or.inr (Or.inr h2)
          · exact Or.inr (Or.inl h3.1)
        · have hin : (stopFinalize r.2 k p0 r.1).projects[i]? = some p := by
            show (r.2.projects.set k _)[i]? = some p
            rw [List.getElem?_set_ne (fun hc => hik hc.symm), hproj2]
            exact hp
          have := refreshAllStatuses_status env (stopFinalize r.2 k p0 r.1) st4
            href i p p' hin hp4
          rcases this with h1 | h2 | h3
          · exact Or.inl h1
          · exact Or.inr (Or.inr h2)
          · exact Or.inr (Or.inl h3.1)

theorem startProjectBegin_projects (env : Env) (st : StoreState) (k : Nat)
    (op : Option String) (r : StartOutcome) (st' : StoreState)
    (h : startProjectBegin env st k op = .ok (r, st')) :
    st'.projects = st.projects ∨
    ∃ p2 : Project, p2.status = .starting ∧ st'.projects = st.projects.set k p2 := by
  unfold startProjectBegin at h
  simp only [bind, Except.bind] at h
  repeat' split at h
  all_goals
    first
    | exact Except.noConfusion h
    | (injection h with h12
       have h2 := congrArg Prod.snd h12
       subst h2
       first
       | exact Or.inl rfl
       | exact Or.inr ⟨_, rfl, rfl⟩)

theorem spawnResolveOk_status (st : StoreState) (k : Nat) :
    ∀ (i : Nat) (p p' : Project), st.projects[i]? = some p →
    (spawnResolveOk st k).projects[i]? = some p' → p'.status = p.status := by
  intro i p p' hp hp'
  unfold spawnResolveOk at hp'
  split at hp'
  · rw [hp] at hp'; exact congrArg Project.status (Option.some.inj hp').symm
  · rename_i p0 hp0
    split at hp'
    · by_cases hik : i = k
      · subst hik
        rcases List.getElem?_eq_some.mp hp with ⟨hl, _⟩
        rw [show (st.projects.set i { p0 with isRunning := true })[i]? =
          some { p0 with isRunning := true } from List.getElem?_set_self hl] at hp'
        have : p0 = p := Option.some.inj (hp0 ▸ hp)
        subst this
        rw [← Option.some.inj hp']
      · rw [List.getElem?_set_ne (fun hc => hik hc.symm), hp] at hp'
        exact congrArg Project.status (Option.some.inj hp').symm
    · rw [hp] at hp'; exact congrArg Project.status (Option.some.inj hp').symm

theorem spawnResolveFail_status (st : StoreState) (k : Nat) :
    ∀ (i : Nat) (p p' : Project), st.projects[i]? = some p →
    (spawnResolveFail st k).projects[i]? = some p' →
    p'.status = p.status ∨ p'.status = .crashed := by
  intro i p p' hp hp'
  unfold spawnResolveFail at hp'
  split at hp'
  · rw [hp] at hp'; exact Or.inl (congrArg Project.status (Option.some.inj hp').symm)
  · rename_i p0 hp0
    split at hp'
    · by_cases hik : i = k
      · subst hik
        rcases List.getElem?_eq_some.mp hp with ⟨hl, _⟩
        rw [show (st.projects.set i { p0 with status := .crashed })[i]? =
          some { p0 with status := .crashed } from List.getElem?_set_self hl] at hp'
        exact Or.inr (by rw [← Option.some.inj hp'])
      · rw [List.getElem?_set_ne (fun hc => hik hc.symm), hp] at hp'
        exact Or.inl (congrArg Project.status (Option.some.inj hp').symm)
    · rw [hp] at hp'
      exact Or.inl (congrArg Project.status (Option.some.inj hp').symm)

theorem procDataEvent_status (st : StoreState) (k : Nat) (d : String) :
    ∀ (i : Nat) (p p' : Project), st.projects[i]? = some p →
    (procDataEvent st k d).projects[i]? = some p' →
    p'.status = p.status ∨ p'.status = .running := by
  intro i p p' hp hp'
  unfold procDataEvent at hp'
  split at hp'
  · rw [hp] at hp'; exact Or.inl (congrArg Project.status (Option.some.inj hp').symm)
  · rename_i p0 hp0
    split at hp'
    · rw [hp] at hp'; exact Or.inl (congrArg Project.status (Option.some.inj hp').symm)
    · rename_i h0 hh0
      by_cases hready : (!h0.serverReady && hasReadyKeyword (lowerStr d)) = true
      · rw [show ({ st with
            handles := handleSet st.handles p0.id
              { h0 with
                output := capOutput (h0.output ++ [d]),
                serverReady := h0.serverReady ||
                  (!h0.serverReady && hasReadyKeyword (lowerStr d)) },
            projects :=
              if !h0.serverReady && hasReadyKeyword (lowerStr d) then
                st.projects.set k { p0 with status := .running }
              else st.projects,
            projectOutput :=
              if st.selectedProjectId = some p0.id then capOutput (h0.output ++ [d])
              else st.projectOutput } : StoreState).projects =
          st.projects.set k { p0 with status := .running } from by
            show (if !h0.serverReady && hasReadyKeyword (lowerStr d) then
              st.projects.set k { p0 with status := .running }
              else st.projects) = _
            rw [if_pos hready]] at hp'
        by_cases hik : i = k
        · subst hik
          rcases List.getElem?_eq_some.mp hp with ⟨hl, _⟩
          rw [List.getElem?_set_self hl] at hp'
          exact Or.inr (by rw [← Option.some.inj hp'])
        · rw [List.getElem?_set_ne (fun hc => hik hc.symm), hp] at hp'
          exact Or.inl (congrArg Project.status (Option.some.inj hp').symm)
      · rw [show ({ st with
            handles := handleSet st.handles p0.id
              { h0 with
                output := capOutput (h0.output ++ [d]),
                serverReady := h0.serverReady ||
                  (!h0.serverReady && hasReadyKeyword (lowerStr d)) },
            projects :=
              if !h0.serverReady && hasReadyKeyword (lowerStr d) then
                st.projects.set k { p0 with status := .running }
              else st.projects,
            projectOutput :=
              if st.selectedProjectId = some p0.id then capOutput (h0.output ++ [d])
              else st.projectOutput } : StoreState).projects = st.projects from by
            show (if !h0.serverReady && hasReadyKeyword (lowerStr d) then
              st.projects.set k { p0 with status := .running }
              else st.projects) = _
            rw [if_neg hready]] at hp'
        rw [hp] at hp'
        exact Or.inl (congrArg Project.status (Option.some.inj hp').symm)

theorem procCloseEvent_status (st : StoreState) (k : Nat) (code : Option Int) :
    ∀ (i : Nat) (p p' : Project), st.projects[i]? = some p →
    (procCloseEvent st k code).projects[i]? = some p' →
    p'.status = p.status ∨ p'.status = .stopped ∨ p'.status = .crashed := by
  intro i p p' hp hp'
  unfold procCloseEvent at hp'
  split at hp'
  · rw [hp] at hp'; exact Or.inl (congrArg Project.status (Option.some.inj hp').symm)
  · rename_i p0 hp0
    by_cases hik : i = k
    · subst hik
      rcases List.getElem?_eq_some.mp hp with ⟨hl, _⟩
      rw [show ({ st with
          handles := handleDel st.handles p0.id,
          projects := st.projects.set i
            { p0 with
              isRunning := false,
              status := if p0.isRunning && closeCodeNonZero code then .crashed
                else .stopped },
          notifications :=
            if p0.isRunning && closeCodeNonZero code then
              st.notifications ++ [p0.name ++ " crashed"]
            else st.notifications } : StoreState).projects =
        st.projects.set i
          { p0 with
            isRunning := false,
            status := if p0.isRunning && closeCodeNonZero code then .crashed
              else .stopped } from rfl, List.getElem?_set_self hl] at hp'
      by_cases hcr : (p0.isRunning && closeCodeNonZero code) = true
      · refine Or.inr (Or.inr ?_)
        rw [← Option.some.inj hp']
        show (if p0.isRunning && closeCodeNonZero code then ProjectStatus.crashed
          else .stopped) = .crashed
        rw [if_pos hcr]
      · refine Or.inr (Or.inl ?_)
        rw [← Option.some.inj hp']
        show (if p0.isRunning && closeCodeNonZero code then ProjectStatus.crashed
          else .stopped) = .stopped
        rw [if_neg hcr]
    · rw [show ({ st with
          handles := handleDel st.handles p0.id,
          projects := st.projects.set k
            { p0 with
              isRunning := false,
              status := if p0.isRunning && closeCodeNonZero code then .crashed
                else .stopped },
          notifications :=
            if p0.isRunning && closeCodeNonZero code then
              st.notifications ++ [p0.name ++ " crashed"]
            else st.notifications } : StoreState).projects =
        st.projects.set k
          { p0 with
            isRunning := false,
            status := if p0.isRunning && closeCodeNonZero code then .crashed
              else .stopped } from rfl,
        List.getElem?_set_ne (fun hc => hik hc.symm), hp] at hp'
      exact Or.inl (congrArg Project.status (Option.some.inj hp').symm)

theorem procErrorEvent_status (st : StoreState) (k : Nat) (e : String) :
    ∀ (i : Nat) (p p' : Project), st.projects[i]? = some p →
    (procErrorEvent st k e).projects[i]? = some p' →
    p'.status = p.status ∨ p'.status = .crashed := by
  intro i p p' hp hp'
  unfold procErrorEvent at hp'
  split at hp'
  · rw [hp] at hp'; exact Or.inl (congrArg Project.status (Option.some.inj hp').symm)
  · rename_i p0 hp0
    by_cases hik : i = k
    · subst hik
      rcases List.getElem?_eq_some.mp hp with ⟨hl, _⟩
      rw [show ({ st with
          projects := st.projects.set i { p0 with isRunning := false, status := .crashed },
          notifications := st.notifications ++ [p0.name ++ ": " ++ e] } :
            StoreState).projects =
        st.projects.set i { p0 with isRunning := false, status := .crashed } from rfl,
        List.getElem?_set_self hl] at hp'
      exact Or.inr (by rw [← Option.some.inj hp'])
    · rw [show ({ st with
          projects := st.projects.set k { p0 with isRunning := false, status := .crashed },
          notifications := st.notifications ++ [p0.name ++ ": " ++ e] } :
            StoreState).projects =
        st.projects.set k { p0 with isRunning := false, status := .crashed } from rfl,
        List.getElem?_set_ne (fun hc => hik hc.symm), hp] at hp'
      exact Or.inl (congrArg Project.status (Option.some.inj hp').symm)

theorem graceTimeoutEvent_status (st : StoreState) (k : Nat) :
    ∀ (i : Nat) (p p' : Project), st.projects[i]? = some p →
    (graceTimeoutEvent st k).projects[i]? = some p' →
    p'.status = p.status ∨ (p.status = .starting ∧ p'.status = .running) := by
  intro i p p' hp hp'
  unfold graceTimeoutEvent at hp'
  split at hp'
  · rw [hp] at hp'; exact Or.inl (congrArg Project.status (Option.some.inj hp').symm)
  · rename_i p0 hp0
    split at hp'
    · rename_i hcond
      by_cases hik : i = k
      · subst hik
        rcases List.getElem?_eq_some.mp hp with ⟨hl, _⟩
        rw [show ({ st with
            projects := st.projects.set i { p0 with status := .running } } :
              StoreState).projects =
          st.projects.set i { p0 with status := .running } from rfl,
          List.getElem?_set_self hl] at hp'
        have hpp : p0 = p := Option.some.inj (hp0 ▸ hp)
        subst hpp
        exact Or.inr ⟨hcond.1, by rw [← Option.some.inj hp']⟩
      · rw [show ({ st with
            projects := st.projects.set k { p0 with status := .running } } :
              StoreState).projects =
          st.projects.set k { p0 with status := .running } from rfl,
          List.getElem?_set_ne (fun hc => hik hc.symm), hp] at hp'
        exact Or.inl (congrArg Project.status (Option.some.inj hp').symm)
    · rw [hp] at hp'
      exact Or.inl (congrArg Project.status (Option.some.inj hp').symm)

theorem natToStr_ne_empty (n : Nat) : natToStr n ≠ "" := by
  intro h
  exact (natToStrAux_spec (n + 1) n (by omega)).1 (congrArg String.data h)

theorem startProjectBegin_invalid (env : Env) (st : StoreState) (i : Nat)
    (op : Option String) (p : Project) (hp : st.projects[i]? = some p)
    (hrun : p.isRunning = false) (e : String) (rest : List String)
    (hval : validateSettings st.settings = e :: rest) :
    startProjectBegin env st i op =
      .ok (.invalid (e :: rest),
        { st with
          projectOutput :=
            "Configuration errors:" :: (e :: rest).map (fun s => "  - " ++ s),
          notifications := st.notifications ++ [e] }) := by
  unfold startProjectBegin
  rw [hp]
  show (if p.isRunning then Except.ok (StartOutcome.alreadyRunning, st)
    else match validateSettings st.settings with
    | e :: _ => _
    | [] => _) = _
  rw [hrun]
  show (match validateSettings st.settings with
    | e :: _ =>
      Except.ok (StartOutcome.invalid (validateSettings st.settings),
        { st with
          projectOutput :=
            "Configuration errors:" ::
              (validateSettings st.settings).map (fun s => "  - " ++ s),
          notifications := st.notifications ++ [e] })
    | [] => _) = _
  rw [hval]

theorem startProjectBegin_conflict (env : Env) (st : StoreState) (i : Nat)
    (op : Option String) (p : Project) (hp : st.projects[i]? = some p)
    (hrun : p.isRunning = false)
    (hval : validateSettings st.settings = [])
    (hvp : isValidPort (jsOr op p.port) = true)
    (hinuse : isPortInUse env (jsOr op p.port) = .ok true) :
    startProjectBegin env st i op =
      (findAvailablePort env (jsOr op p.port)).bind fun suggested =>
        if suggested ≠ "" then
          .ok (.conflict suggested,
            { st with portConflict := some ⟨p.id, suggested⟩ })
        else
          .ok (.noFreePort,
            { st with notifications := st.notifications ++
                ["Port " ++ jsOr op p.port ++
                  " is in use and no free port found nearby"] }) := by
  unfold startProjectBegin
  rw [hp]
  show (if p.isRunning then Except.ok (StartOutcome.alreadyRunning, st)
    else match validateSettings st.settings with
    | e :: _ => _
    | [] => _) = _
  rw [hrun]
  rw [hval]
  simp only [hvp, if_true, Bool.false_eq_true, if_false, hinuse]
  rfl

/-! ### Claim theorems -/

/-- C2: amended status-edge discipline. The claim's edge set
(`stopped -> starting -> running -> {stopped, crashed}`,
`starting -> crashed`, `crashed -> stopped`) is refuted: a reconciliation
pass adopts an externally running server and moves a project directly from
`stopped` to `running` without passing through `starting` (see the
counterexample). Amended property: every engine step either leaves a
project's status unchanged or moves it along `amendedEdge`, which extends
the claimed edges with the reconcile adoptions `* -> running` and
`* -> stopped` (never off `crashed`), the stop edge `* -> stopped/running`,
and the crash edges `* -> crashed` on spawn failure or process error. -/
theorem C2_status_edges (env : Env) (st : StoreState) (ev : StepEv)
    (st' : StoreState) (h : step env st ev = .ok st') (i : Nat) (p p' : Project)
    (hp : st.projects[i]? = some p) (hp' : st'.projects[i]? = some p') :
    p'.status = p.status ∨ amendedEdge ev p.status p'.status := by
  cases ev with
  | startBegin k op =>
    have hm : (startProjectBegin env st k op).map Prod.snd = .ok st' := h
    rcases hsb : startProjectBegin env st k op with e | pr
    · rw [hsb] at hm; exact absurd hm (by simp [Except.map])
    · rw [hsb] at hm
      have hst' : st' = pr.2 := by
        have := Except.ok.inj (show Except.ok pr.2 = Except.ok st' from hm)
        exact this.symm
      subst hst'
      rcases startProjectBegin_projects env st k op pr.1 pr.2 (by rw [hsb]) with
        hsame | ⟨p2, hp2s, hset⟩
      · left
        rw [hsame, hp] at hp'
        exact congrArg Project.status (Option.some.inj hp').symm
      · by_cases hik : i = k
        · subst hik
          rcases List.getElem?_eq_some.mp hp with ⟨hl, _⟩
          rw [hset,
            show (st.projects.set i p2)[i]? = some p2 from
              List.getElem?_set_self hl] at hp'
          right
          show p'.status = .starting
          rw [← Option.some.inj hp']
          exact hp2s
        · left
          rw [hset, List.getElem?_set_ne (fun hc => hik hc.symm), hp] at hp'
          exact congrArg Project.status (Option.some.inj hp').symm
  | spawnOk k =>
    have hst' : st' = spawnResolveOk st k := (Except.ok.inj h).symm
    subst hst'
    exact Or.inl (spawnResolveOk_status st k i p p' hp hp')
  | spawnFail k =>
    have hst' : st' = spawnResolveFail st k := (Except.ok.inj h).symm
    subst hst'
    rcases spawnResolveFail_status st k i p p' hp hp' with h1 | h1
    · exact Or.inl h1
    · exact Or.inr h1
  | procData k d =>
    have hst' : st' = procDataEvent st k d := (Except.ok.inj h).symm
    subst hst'
    rcases procDataEvent_status st k d i p p' hp hp' with h1 | h1
    · exact Or.inl h1
    · exact Or.inr h1
  | procClose k c =>
    have hst' : st' = procCloseEvent st k c := (Except.ok.inj h).symm
    subst hst'
    rcases procCloseEvent_status st k c i p p' hp hp' with h1 | h1 | h1
    · exact Or.inl h1
    · exact Or.inr (Or.inl h1)
    · exact Or.inr (Or.inr h1)
  | procError k e =>
    have hst' : st' = procErrorEvent st k e := (Except.ok.inj h).symm
    subst hst'
    rcases procErrorEvent_status st k e i p p' hp hp' with h1 | h1
    · exact Or.inl h1
    · exact Or.inr h1
  | graceTimeout k =>
    have hst' : st' = graceTimeoutEvent st k := (Except.ok.inj h).symm
    subst hst'
    rcases graceTimeoutEvent_status st k i p p' hp hp' with h1 | h1
    · exact Or.inl h1
    · exact Or.inr h1
  | stopProj k =>
    rcases stopProjectRun_status env st k st' h i p p' hp hp' with h1 | h1 | h1
    · exact Or.inl h1
    · exact Or.inr (Or.inl h1)
    · exact Or.inr (Or.inr h1)
  | reconcile =>
    rcases refreshAllStatuses_status env st st' h i p p' hp hp' with h1 | h1 | h1
    · exact Or.inl h1
    · exact Or.inr (Or.inl h1)
    · exact Or.inr (Or.inr h1)

/-- Concrete instantiation of the C2 amended theorem: a reconcile step on
the witness fixtures. -/
theorem C2_status_edges_witness :
    pC2w.status = pC2w.status ∨ amendedEdge .reconcile pC2w.status pC2w.status :=
  C2_status_edges envC2w stC2w .reconcile stC2wAfter (by decide) 0 pC2w pC2w
    (by decide) (by decide)

/-- Counterexample to C2 as stated: one reconcile step moves the project
from `stopped` directly to `running`, an edge absent from the claimed
edge set. -/
theorem C2_counterexample :
    stC2.projects.map Project.status = [.stopped] ∧
    (step envC2 stC2 .reconcile).map (fun s => s.projects.map Project.status) =
      .ok [.running] ∧
    claimedEdgeC2 .stopped .running = false := by
  refine ⟨by decide, by decide, by decide⟩

/-- C1: amended port-conflict contract. The claim's premise "for every
project whose configured port is already bound" is too broad: when the
settings fail validation, `startProject` returns before the port probe runs
(see the counterexample, where the port is bound yet no `PortConflict` is
produced), and a running project returns even earlier. Amended property:
for a non-running project with valid settings and a valid, bound port,
`startProject` spawns no process and either yields exactly one
`PortConflict` whose suggested port is strictly greater than the requested
one, or, when no free port exists in range, only appends a notification and
leaves `portConflict` untouched. -/
theorem C1_port_conflict (env : Env) (f : String → Int)
    (hf : ∀ s, env.portProbeExec s = .ok (f s))
    (st : StoreState) (i : Nat) (op : Option String) (p : Project)
    (hp : st.projects[i]? = some p)
    (hrun : p.isRunning = false)
    (hval : validateSettings st.settings = [])
    (hvp : isValidPort (jsOr op p.port) = true)
    (hinuse : f (jsOr op p.port) = 0) :
    ∃ n : Nat, jsParseInt (jsOr op p.port) = some (n : Int) ∧
      (match firstFreePort (fun q => f (natToStr q) == 0) n with
       | some q =>
         n < q ∧
         startProjectBegin env st i op =
           .ok (.conflict (natToStr q),
             { st with portConflict := some ⟨p.id, natToStr q⟩ })
       | none =>
         startProjectBegin env st i op =
           .ok (.noFreePort,
             { st with notifications := st.notifications ++
                 ["Port " ++ jsOr op p.port ++
                   " is in use and no free port found nearby"] })) := by
  obtain ⟨n, hn0, hn65535, hparse, hport⟩ := isValidPort_charac _ hvp
  refine ⟨n, hparse, ?_⟩
  have hinuse' : isPortInUse env (jsOr op p.port) = .ok true := by
    unfold isPortInUse
    rw [hf, hinuse]
    rfl
  have hchar := startProjectBegin_conflict env st i op p hp hrun hval hvp hinuse'
  have hfind := findAvailablePort_spec env f hf n
  rw [← hport] at hfind
  rcases hfp : firstFreePort (fun q => f (natToStr q) == 0) n with _ | q
  · show startProjectBegin env st i op =
      .ok (.noFreePort,
        { st with notifications := st.notifications ++
            ["Port " ++ jsOr op p.port ++
              " is in use and no free port found nearby"] })
    have hfind' : findAvailablePort env (jsOr op p.port) = .ok "" := by
      rw [hfp] at hfind; exact hfind
    rw [hchar, hfind']
    rfl
  · show n < q ∧ startProjectBegin env st i op =
      .ok (.conflict (natToStr q),
        { st with portConflict := some ⟨p.id, natToStr q⟩ })
    have hfind' : findAvailablePort env (jsOr op p.port) = .ok (natToStr q) := by
      rw [hfp] at hfind; exact hfind
    refine ⟨(firstFreePort_gt _ n q hfp).1, ?_⟩
    rw [hchar, hfind']
    show (if natToStr q ≠ "" then _ else _) = _
    rw [if_pos (natToStr_ne_empty q)]

/-- Concrete instantiation of the C1 amended theorem: port 8000 is bound,
8001 is bound, and the scan suggests a strictly larger free port. -/
theorem C1_port_conflict_witness :
    ∃ n : Nat, jsParseInt (jsOr none pC1w.port) = some (n : Int) ∧
      (match firstFreePort
          (fun q => (if natToStr q = "8000" ∨ natToStr q = "8001"
            then (0 : Int) else 1) == 0) n with
       | some q =>
         n < q ∧
         startProjectBegin envC1w stC1w 0 none =
           .ok (.conflict (natToStr q),
             { stC1w with portConflict := some ⟨pC1w.id, natToStr q⟩ })
       | none =>
         startProjectBegin envC1w stC1w 0 none =
           .ok (.noFreePort,
             { stC1w with notifications := stC1w.notifications ++
                 ["Port " ++ jsOr none pC1w.port ++
                   " is in use and no free port found nearby"] })) :=
  C1_port_conflict envC1w
    (fun s => if s = "8000" ∨ s = "8001" then 0 else 1)
    (fun _ => rfl) stC1w 0 none pC1w (by decide) (by decide) (by decide)
    (by decide) (by decide)

/-- Counterexample to C1 as stated: the configured port 8000 is bound
(`isPortInUse` is true), yet `startProject` produces no `PortConflict` and
spawns nothing, because settings validation fails first. -/
theorem C1_counterexample :
    isPortInUse envC1 "8000" = .ok true ∧
    (startProjectBegin envC1 stC1 0 none).map
        (fun r => (r.1, r.2.portConflict, r.2.pendingSpawns)) =
      .ok (.invalid ["Invalid port: abc (must be 1-65535)"], none, []) := by
  refine ⟨by decide, by decide⟩

/-- C3: confirmed end-to-end reconciliation scenario. With one listed
instance (pid `123`, port `*:8000`, truncated fragment `.../app` stripped
to `/app` by the parser) and one tracked project at `/p/app` with
configured port `8000`, the path-match pass marks the project running,
records pid `"123"` against it, and adopts the reported port `"8000"`. -/
theorem C3_end_to_end :
    parsePhpupListOutput listOutC3 =
      [{ pid := "123", port := some "8000", pathFragment := some "/app" }] ∧
    (refreshAllStatuses envC3 stC3).map
        (fun st => (st.projects.map fun p => (p.status, p.isRunning, p.port),
          st.runningPids)) =
      .ok ([(.running, true, "8000")], [("p1", "123")]) := by
  refine ⟨by decide, by decide⟩

/-- C4: confirmed idempotence of the reconciler. If one reconciliation pass
against a fixed external reality (fixed listing, fixed probe responses)
turns `st` into `st1`, a second identical pass maps `st1` to itself: the
second run is a no-op on all project state, including statuses, running
flags, tracked pids, and ports. Distinct tracked project ids are assumed,
as guaranteed by the store's id generator. -/
theorem C4_reconcile_idempotent (env : Env) (st st1 : StoreState)
    (hnd : (st.projects.map Project.id).Nodup)
    (h : refreshAllStatuses env st = .ok st1) :
    refreshAllStatuses env st1 = .ok st1 := by
  unfold refreshAllStatuses at h ⊢
  rcases hl : env.listCmd with _ | out
  · rw [hl] at h; exact Except.noConfusion h
  · rw [hl] at h
    have hst1 : reconcileCore env (parsePhpupListOutput out) st = st1 :=
      Except.ok.inj h
    show Except.ok (reconcileCore env (parsePhpupListOutput out) st1) =
      Except.ok st1
    rw [← hst1, reconcileCore_idem env _ st hnd]

/-- Concrete instantiation of the C4 theorem: reconciling the two-project
witness state a second time returns it unchanged. -/
theorem C4_reconcile_idempotent_witness :
    refreshAllStatuses envC4 stC4After = .ok stC4After :=
  C4_reconcile_idempotent envC4 stC4 stC4After (by decide) (by decide)

/-- C5: confirmed crash preservation. A project that starts the
reconciliation pass with status `crashed` and is matched by neither the
path-match pass nor the HTTP-probe pass keeps status `crashed`, and a
project owned by a live process handle keeps its controller-assigned
status. -/
theorem C5_crashed_preserved (env : Env) (st st' : StoreState) (out : String)
    (i : Nat) (p : Project)
    (hl : env.listCmd = .ok out)
    (h : refreshAllStatuses env st = .ok st')
    (hp : st.projects[i]? = some p) :
    ((p.status = .crashed ∧
        (reconcileAux env (parsePhpupListOutput out) st).1.contains p.id
          = false) →
      ∃ p', st'.projects[i]? = some p' ∧ p'.status = .crashed)
    ∧ ((handleIds st.handles).contains p.id = true →
      ∃ p', st'.projects[i]? = some p' ∧ p'.status = p.status) := by
  unfold refreshAllStatuses at h
  rw [hl] at h
  have hst' : st' = reconcileCore env (parsePhpupListOutput out) st :=
    (Except.ok.inj h).symm
  subst hst'
  obtain ⟨p', hp', _, _, hstat⟩ :=
    reconcile_status_char env (parsePhpupListOutput out) st i p hp
  constructor
  · rintro ⟨hc, hm⟩
    refine ⟨p', hp', ?_⟩
    rw [hstat]
    by_cases hh : (handleIds st.handles).contains p.id = true
    · rw [if_pos hh]; exact hc
    · rw [if_neg hh, if_neg (by rw [hm]; exact Bool.false_ne_true), if_pos hc]
  · intro hh
    exact ⟨p', hp', by rw [hstat, if_pos hh]⟩

/-- Concrete instantiation of the C5 theorem: the crashed, unmatched
witness project is still `crashed` after the pass. -/
theorem C5_crashed_preserved_witness :
    ∃ p', stC5After.projects[0]? = some p' ∧ p'.status = .crashed :=
  (C5_crashed_preserved envC5 stC5 stC5After listOutC3 0 pC5 (by decide)
    (by decide) (by decide)).1 ⟨by decide, by decide⟩

/-- C6: confirmed port-scan contract. Against any probe oracle,
`findAvailablePort` starting from port `n` returns exactly the first free
port in the window `n+1 .. n+100` capped at 65535, scanned in strictly
increasing order, and the empty string when every candidate in that window
is in use or out of range. -/
theorem C6_port_scan (env : Env) (f : String → Int)
    (hf : ∀ s, env.portProbeExec s = .ok (f s)) (n : Nat) :
    findAvailablePort env (natToStr n) =
      .ok (match firstFreePort (fun p => f (natToStr p) == 0) n with
           | some p => natToStr p
           | none => "") :=
  findAvailablePort_spec env f hf n

/-- Concrete instantiation of the C6 theorem: with 8000 and 8001 occupied
and 8002 free, `findAvailablePort "8000"` returns `"8002"`. -/
theorem C6_port_scan_witness :
    findAvailablePort envC6 "8000" = .ok "8002" := by
  have h := C6_port_scan envC6 (fun s => if s = "8001" then 0 else 1)
    (fun _ => rfl) 8000
  have e1 : natToStr 8000 = "8000" := by decide
  rw [e1] at h
  rw [h]
  decide

/-- C7: amended path-matcher contract. The four-clause disjunction holds
exactly as claimed, and `matches("/home/u/proj", "/var/x/proj")` is false;
but the claimed example `matches("/home/u/proj", ".../proj")` is refuted:
the truncation marker `...` is stripped by the list-output parser before
the matcher ever runs, so the matcher itself returns false on a raw
`".../proj"` fragment (see the counterexample) and true on the stripped
`"/proj"` fragment. -/
theorem C7_path_matcher :
    (∀ projectPath fragment : String,
      projectPathMatchesFragment projectPath fragment = true ↔
        (fragment.data <:+ projectPath.data ∨
         fragment.data <:+: projectPath.data ∨
         (getPathSuffix projectPath 2).data <:+ fragment.data ∨
         getPathSuffix projectPath 2 = getPathSuffix fragment 2)) ∧
    projectPathMatchesFragment "/home/u/proj" "/proj" = true ∧
    projectPathMatchesFragment "/home/u/proj" "/var/x/proj" = false := by
  refine ⟨?_, by decide, by decide⟩
  intro pp fr
  unfold projectPathMatchesFragment strEndsWith strIncludes
  simp only [Bool.or_eq_true, List.isSuffixOf_iff_suffix, containsSub_iff,
    decide_eq_true_eq]
  tauto

/-- Counterexample to C7 as stated: the matcher applied to the raw
truncated fragment `".../proj"` returns false; the `...` marker is removed
by the parser (`lineFragment`), not by the matcher. -/
theorem C7_counterexample :
    projectPathMatchesFragment "/home/u/proj" ".../proj" = false ∧
    lineFragment "999   frankenphp   TCP *:80   .../proj .phpup/Caddyfile".data
      = some "/proj" := by
  refine ⟨by decide, by decide⟩

/-- C8: amended validation contract. The premise is amended to the
truthiness-guarded checks the code performs (an empty host or domain is
skipped, see the counterexample): when the port parses outside 1–65535, a
non-empty host or domain fails the `[\w.-]+` class check, or a non-`auto`
thread count parses outside 1–256, `startProject` on a non-running project
returns a non-empty validation error set, spawns nothing, and leaves every
project, tracked pid, pending spawn, and handle unchanged. -/
theorem C8_validation_rejects (env : Env) (st : StoreState) (i : Nat)
    (op : Option String) (p : Project)
    (hp : st.projects[i]? = some p)
    (hrun : p.isRunning = false)
    (hinv : settingsInvalidSpec st.settings) :
    ∃ errs st', startProjectBegin env st i op = .ok (.invalid errs, st') ∧
      errs ≠ [] ∧ st'.projects = st.projects ∧
      st'.runningPids = st.runningPids ∧
      st'.pendingSpawns = st.pendingSpawns ∧
      st'.handles = st.handles := by
  have hne := validateSettings_ne_nil st.settings hinv
  rcases hv : validateSettings st.settings with _ | ⟨e, rest⟩
  · exact absurd hv hne
  · exact ⟨e :: rest, _,
      startProjectBegin_invalid env st i op p hp hrun e rest hv,
      List.cons_ne_nil e rest, rfl, rfl, rfl, rfl⟩

/-- Concrete instantiation of the C8 amended theorem: a thread count of
`"999"` is rejected with no side effects. -/
theorem C8_validation_rejects_witness :
    ∃ errs st', startProjectBegin quietEnv stC8w 0 none =
        .ok (.invalid errs, st') ∧
      errs ≠ [] ∧ st'.projects = stC8w.projects ∧
      st'.runningPids = stC8w.runningPids ∧
      st'.pendingSpawns = stC8w.pendingSpawns ∧
      st'.handles = stC8w.handles :=
  C8_validation_rejects quietEnv stC8w 0 none pC8w (by decide) (by decide)
    (Or.inr (Or.inr (Or.inr ⟨by decide, by
      show (999 : Int) < 1 ∨ (999 : Int) > 256
      exact Or.inr (by decide)⟩)))

/-- Counterexample to C8 as stated: an empty host fails the `[\w.-]+`
character class (which requires at least one character), yet validation
reports no error — the truthiness guard skips empty strings — and the
start proceeds all the way to a spawn. -/
theorem C8_counterexample :
    (¬(stC8.settings.host.data ≠ [] ∧
        stC8.settings.host.data.all isWordDotDash = true)) ∧
    validateSettings stC8.settings = [] ∧
    (startProjectBegin quietEnv stC8 0 none).map
        (fun r => (r.2.pendingSpawns, r.2.projects.map Project.status)) =
      .ok (["c8"], [.starting]) := by
  refine ⟨by decide, by decide, by decide⟩

/-- C9: amended probe-failure contract. HTTP and config probes are indeed
swallowed: whenever the `phpup --list` probe itself succeeds, the whole
reconciliation succeeds no matter how the port, HTTP, or config probes
behave (they are total in the embedding, and every rejection is treated as
a negative answer). The claim's inclusion of the list probe is refuted: a
rejected `phpup --list` propagates out of `refreshAllStatuses`, which has
no handler for it (see the counterexample). -/
theorem C9_probe_errors (env : Env) (st : StoreState) (out : String)
    (h : env.listCmd = .ok out) :
    refreshAllStatuses env st =
      .ok (reconcileCore env (parsePhpupListOutput out) st) := by
  unfold refreshAllStatuses
  rw [h]

/-- Concrete instantiation of the C9 amended theorem: the listing succeeds
while every HTTP probe and config read rejects, the unmatched instance
forces the HTTP-probe pass, and reconciliation still returns normally. -/
theorem C9_probe_errors_witness :
    refreshAllStatuses envC9w stC9w =
      .ok (reconcileCore envC9w
        (parsePhpupListOutput "77 frankenphp TCP *:9999\n") stC9w) :=
  C9_probe_errors envC9w stC9w "77 frankenphp TCP *:9999\n" (by decide)

/-- Counterexample to C9 as stated: a rejected `phpup --list` probe is not
swallowed; the error propagates out of the reconciliation flow. -/
theorem C9_counterexample :
    envC9.listCmd = .error () ∧
    refreshAllStatuses envC9 stC9 = .error () := by
  refine ⟨by decide, by decide⟩

/-- C10: confirmed single-consumption invariant of the path-match pass. In
one pass, no listed instance index is recorded against two different
project positions, and ties go to the earliest project: whenever an
earlier project was left unmatched and a later project consumed an
instance, the earlier project genuinely failed the path match against that
instance's fragment. -/
theorem C10_instance_consumed (instances : List PhpupListedInstance)
    (ps : List Project) :
    List.Pairwise
      (fun d1 d2 => ∀ k1 i1 k2 i2, d1 = some (k1, i1) → d2 = some (k2, i2) →
        k1 ≠ k2)
      (pass1Decisions instances ps []) ∧
    (∀ (posN posM : Nat) (pN : Project) (kM : Nat)
      (instM : PhpupListedInstance), posN < posM →
      (pass1Decisions instances ps [])[posN]? = some none →
      (pass1Decisions instances ps [])[posM]? = some (some (kM, instM)) →
      ps[posN]? = some pN →
      ∀ f, instM.pathFragment = some f → f ≠ "" →
      projectPathMatchesFragment pN.path f = false) :=
  ⟨pass1Decisions_pairwise instances ps [],
   fun posN posM pN kM instM h1 h2 h3 h4 f h5 h6 =>
     pass1Decisions_earliest instances ps [] posN posM pN kM instM h1 h2 h3 h4
       f h5 h6⟩

/-- Concrete instantiation of the C10 theorem: the instance consumed by the
second witness project was genuinely rejected by the first. -/
theorem C10_instance_consumed_witness :
    projectPathMatchesFragment pC10a.path "/app" = false :=
  (C10_instance_consumed instC10 psC10).2 0 1 pC10a 0
    { pid := "123", port := some "8000", pathFragment := some "/app" }
    (by decide) (by decide) (by decide) (by decide) "/app" (by decide)
    (by decide)

end Phpup
